import Mathlib

/-!
# Verification of the qwen-ai-provider adapter library

Shallow embedding of the adapter's pure core, translated from the
TypeScript sources:

* `map-qwen-finish-reason.ts`  — finish-reason mapper,
* `build-usage.ts`             — usage normalizer,
* `qwen-embedding-model.ts`    — embedding batch validation,
* `qwen-reranking-model.ts`    — dual wire-format rerank dispatch,
* `qwen-completion-language-model.ts` — completion argument construction,
* `convert-to-qwen-chat-messages.ts`  — message converter,
* the streaming transform of `QwenChatLanguageModel.doStream`.

JS `string | null | undefined` values are embedded as `Option String`
(`null` and `undefined` are both `none`, matching the `?? undefined`
normalizations in the source).  JS numbers that the adapter merely passes
through without arithmetic are embedded as `Nat`/`Int`.  Fallible code is
embedded with `Except`.  Functions imported from external collaborator
packages (`isParsableJson`) are taken as parameters, since the adapter
treats them as black boxes.
-/

namespace QwenProvider

/-- A minimal JSON value type, used for opaque provider-option values and
for `JSON.stringify` of tool-call inputs / tool outputs. -/
inductive Json where
  | null : Json
  | bool (b : Bool) : Json
  | num (n : Int) : Json
  | str (s : String) : Json
  | arr (xs : List Json) : Json
  | obj (fields : List (String × Json)) : Json
deriving Repr

/-- Escape a string for JSON output (quote and backslash only; enough for
the compact serializer below). -/
def escapeJsonString (s : String) : String :=
  s.foldl
    (fun acc c =>
      if c = '"' then acc ++ "\\\""
      else if c = '\\' then acc ++ "\\\\"
      else acc.push c)
    ""

mutual

/-- Compact JSON serialization, the embedding of `JSON.stringify` applied
to the values of `Json`. -/
def Json.stringify : Json → String
  | .null => "null"
  | .bool b => if b then "true" else "false"
  | .num n => toString n
  | .str s => "\"" ++ escapeJsonString s ++ "\""
  | .arr xs => "[" ++ stringifyList xs ++ "]"
  | .obj fs => "\x7b" ++ stringifyFields fs ++ "\x7d"

/-- Serialize a JSON array body, comma separated. -/
def Json.stringifyList : List Json → String
  | [] => ""
  | [x] => stringify x
  | x :: y :: rest => stringify x ++ "," ++ stringifyList (y :: rest)

/-- Serialize a JSON object body, comma separated. -/
def Json.stringifyFields : List (String × Json) → String
  | [] => ""
  | [(k, v)] => "\"" ++ escapeJsonString k ++ "\":" ++ stringify v
  | (k, v) :: f :: rest =>
      "\"" ++ escapeJsonString k ++ "\":" ++ stringify v ++ ","
        ++ stringifyFields (f :: rest)

end

/-! ## Finish-reason mapper (`map-qwen-finish-reason.ts`) -/

/-- `LanguageModelV3FinishReason`: the canonical pair
`{unified, raw}` returned by the finish-reason mapper. -/
structure LanguageModelV3FinishReason where
  unified : String
  raw : Option String
deriving Repr, DecidableEq

/-- Embedding of `mapQwenFinishReason` from `map-qwen-finish-reason.ts`.
The argument type `string | null | undefined` is embedded as
`Option String`; `raw: finishReason ?? undefined` is then the argument
itself. -/
def mapQwenFinishReason (finishReason : Option String) :
    LanguageModelV3FinishReason :=
  let unified : String :=
    match finishReason with
    | some "stop" => "stop"
    | some "length" => "length"
    | some "tool_calls" => "tool-calls"
    | some "content_filter" => "content-filter"
    | _ => "other"
  { unified := unified, raw := finishReason }

/-- The canonical `unified` values the mapper can produce. -/
def canonicalUnifiedValues : List String :=
  ["stop", "length", "tool-calls", "content-filter", "other"]

/-! ## Usage normalizer (`build-usage.ts`) -/

/-- Input-token breakdown of `LanguageModelV3Usage`. -/
structure InputTokenBreakdown where
  total : Option Nat
  noCache : Option Nat
  cacheRead : Option Nat
  cacheWrite : Option Nat
deriving Repr, DecidableEq

/-- Output-token breakdown of `LanguageModelV3Usage`. -/
structure OutputTokenBreakdown where
  total : Option Nat
  text : Option Nat
  reasoning : Option Nat
deriving Repr, DecidableEq

/-- `LanguageModelV3Usage`: nested canonical usage counts. -/
structure LanguageModelV3Usage where
  inputTokens : InputTokenBreakdown
  outputTokens : OutputTokenBreakdown
deriving Repr, DecidableEq

/-- Embedding of `buildUsage` from `build-usage.ts`. -/
def buildUsage (inputTokens outputTokens : Option Nat) :
    LanguageModelV3Usage :=
  { inputTokens :=
      { total := inputTokens
        noCache := none
        cacheRead := none
        cacheWrite := none }
    outputTokens :=
      { total := outputTokens
        text := none
        reasoning := none } }

/-! ## Embedding model (`qwen-embedding-model.ts`) -/

/-- The configuration fields of `QwenEmbeddingConfig` relevant to batch
validation and request construction. -/
structure QwenEmbeddingConfig where
  maxEmbeddingsPerCall : Option Nat
  provider : String
  baseURL : String
deriving Repr, DecidableEq

/-- Settings of `QwenEmbeddingSettings` that flow into the request body. -/
structure QwenEmbeddingSettings where
  dimensions : Option Nat
  user : Option String
deriving Repr, DecidableEq

/-- `QwenEmbeddingModel`: model id plus settings and configuration. -/
structure QwenEmbeddingModel where
  modelId : String
  settings : QwenEmbeddingSettings
  config : QwenEmbeddingConfig
deriving Repr, DecidableEq

/-- Embedding of the getter
`get maxEmbeddingsPerCall() { return this.config.maxEmbeddingsPerCall ?? 2048 }`.
The TS return type is `number | undefined` but the value is never
`undefined`, so the embedding returns `Nat`. -/
def QwenEmbeddingModel.maxEmbeddingsPerCall (m : QwenEmbeddingModel) : Nat :=
  m.config.maxEmbeddingsPerCall.getD 2048

/-- `TooManyEmbeddingValuesForCallError`: the typed error thrown by
`doEmbed` when the batch is too large. -/
structure TooManyEmbeddingValuesForCallError where
  provider : String
  modelId : String
  maxEmbeddingsPerCall : Nat
  values : List String
deriving Repr, DecidableEq

/-- The HTTP request `doEmbed` hands to the fetch function on the success
path (url and the deterministic body fields). -/
structure EmbedRequest where
  url : String
  model : String
  input : List String
  encoding_format : String
  dimensions : Option Nat
  user : Option String
deriving Repr, DecidableEq

/-- Embedding of the pre-network phase of `QwenEmbeddingModel.doEmbed`:
validate the batch size, then build the request that is passed to
`postJsonToApi`.  Producing `.ok r` models invoking the fetch function
with request `r`; producing `.error e` models throwing before any fetch.
(The `?? Number.POSITIVE_INFINITY` fallback in the source is dead code
because the getter never returns `undefined`.) -/
def QwenEmbeddingModel.doEmbedRequest (m : QwenEmbeddingModel)
    (values : List String) :
    Except TooManyEmbeddingValuesForCallError EmbedRequest :=
  let maxEmbeddings := m.maxEmbeddingsPerCall
  if values.length > maxEmbeddings then
    .error
      { provider := m.config.provider
        modelId := m.modelId
        maxEmbeddingsPerCall := maxEmbeddings
        values := values }
  else
    .ok
      { url := m.config.baseURL ++ "/embeddings"
        model := m.modelId
        input := values
        encoding_format := "float"
        dimensions := m.settings.dimensions
        user := m.settings.user }

/-! ## Reranking model (`qwen-reranking-model.ts`) -/

/-- Key-value bag of provider-specific options (a JS object spread into a
request body or message; later keys override earlier ones). -/
abbrev OptionsBag := List (String × Json)

/-- `QwenRerankingSettings` fields consulted by `doRerank`. -/
structure QwenRerankingSettings where
  instruct : Option String
  returnDocuments : Option Bool
deriving Repr

/-- `QwenRerankingConfig` fields consulted by `doRerank`. -/
structure QwenRerankingConfig where
  provider : String
  baseURL : String
deriving Repr

/-- `QwenRerankingModel`: model id plus settings and configuration. -/
structure QwenRerankingModel where
  modelId : String
  settings : QwenRerankingSettings
  config : QwenRerankingConfig
deriving Repr

/-- The `documents` input of `doRerank`: either text documents or
object-typed documents (serialized with `JSON.stringify` before
transmission). -/
inductive RerankDocuments where
  | text (values : List String) : RerankDocuments
  | object (values : List Json) : RerankDocuments
deriving Repr

/-- Embedding of the `documentTexts` computation in `doRerank`. -/
def rerankDocumentTexts : RerankDocuments → List String
  | .text vs => vs
  | .object vs => vs.map Json.stringify

/-- Embedding of `String.prototype.startsWith`: code-point prefix test
(decidable, unlike the opaque core-library substring machinery). -/
def strStartsWith (s pre : String) : Bool :=
  pre.data.isPrefixOf s.data

/-- Embedding of `usesOpenAICompatibleAPI` from `qwen-reranking-model.ts`. -/
def usesOpenAICompatibleAPI (modelId : String) : Bool :=
  strStartsWith modelId "qwen3-rerank"

/-- Body built by `doRerankOpenAICompatible`: the flat OpenAI-compatible
shape.  `top_n` and `instruct` are only set when non-null, which the
`Option` fields record.  `extra` holds the spread provider options. -/
structure RerankBodyOpenAI where
  model : String
  documents : List String
  query : String
  top_n : Option Nat
  instruct : Option String
  extra : OptionsBag
deriving Repr

/-- Body built by `doRerankDashScope`: the legacy nested shape with
`input.{query,documents}` and a `parameters` object whose keys are only
set when non-null.  `extra` holds the spread provider options. -/
structure RerankBodyDashScope where
  model : String
  inputQuery : String
  inputDocuments : List String
  parametersTopN : Option Nat
  parametersReturnDocuments : Option Bool
  extra : OptionsBag
deriving Repr

/-- The request `doRerank` hands to the fetch function: endpoint url plus
one of the two body shapes. -/
inductive RerankRequest where
  | openaiCompat (url : String) (body : RerankBodyOpenAI) : RerankRequest
  | dashscope (url : String) (body : RerankBodyDashScope) : RerankRequest
deriving Repr

/-- Embedding of the request-construction phase of
`QwenRerankingModel.doRerank`: dispatch on `usesOpenAICompatibleAPI` and
build either the flat OpenAI-compatible request or the legacy nested
DashScope request.  `specificProviderOptions` is the provider-options bag
the source spreads into the body. -/
def QwenRerankingModel.buildRerankRequest (m : QwenRerankingModel)
    (documents : RerankDocuments) (query : String) (topN : Option Nat)
    (specificProviderOptions : OptionsBag) : RerankRequest :=
  let documentTexts := rerankDocumentTexts documents
  if usesOpenAICompatibleAPI m.modelId then
    .openaiCompat (m.config.baseURL ++ "/compatible-api/v1/reranks")
      { model := m.modelId
        documents := documentTexts
        query := query
        top_n := topN
        instruct := m.settings.instruct
        extra := specificProviderOptions }
  else
    .dashscope
      (m.config.baseURL ++ "/api/v1/services/rerank/text-rerank/text-rerank")
      { model := m.modelId
        inputQuery := query
        inputDocuments := documentTexts
        parametersTopN := topN
        parametersReturnDocuments := m.settings.returnDocuments
        extra := specificProviderOptions }

/-- One vendor result entry (`results[i]` resp. `output.results[i]`).
The relevance score is a JS float the adapter never computes with, so it
is embedded as an arbitrary type `α`. -/
structure VendorRerankResult (α : Type) where
  index : Nat
  relevance_score : α
deriving Repr

/-- One canonical ranking entry returned by `doRerank`. -/
structure RankingEntry (α : Type) where
  index : Nat
  relevanceScore : α
deriving Repr

/-- Embedding of the response mapping in `doRerank`:
`results.map(result => ({index: result.index, relevanceScore:
result.relevance_score}))` — identical in both wire-format branches. -/
def mapRerankResults {α : Type} (results : List (VendorRerankResult α)) :
    List (RankingEntry α) :=
  results.map fun r => { index := r.index, relevanceScore := r.relevance_score }

/-! ## Message converter (`convert-to-qwen-chat-messages.ts`) -/

/-- JS object property lookup on an association list whose later bindings
override earlier ones (spread semantics). -/
def jsLookup {α : Type} (l : List (String × α)) (k : String) : Option α :=
  l.foldl (fun acc p => if p.1 = k then some p.2 else acc) none

/-- `SharedV2ProviderOptions`: a record keyed by provider name, each entry
an options bag.  `none` embeds an absent `providerOptions` field. -/
abbrev SharedProviderOptions := Option (List (String × OptionsBag))

/-- `providerOptions?.[name] ?? {}`: extract one provider's options bag. -/
def lookupProviderOptions (providerOptions : SharedProviderOptions)
    (name : String) : OptionsBag :=
  match providerOptions with
  | none => []
  | some po => (jsLookup po name).getD []

/-- Embedding of `getQwenOptions`:
`message?.providerOptions?.qwen ?? {}`. -/
def getQwenOptions (providerOptions : SharedProviderOptions) : OptionsBag :=
  lookupProviderOptions providerOptions "qwen"

/-- The `data` of a file content part: `string | URL | Uint8Array`. -/
inductive FileData where
  | str (s : String) : FileData
  | url (u : String) : FileData
  | bytes (b : List Nat) : FileData
deriving Repr

/-- The base64 alphabet used by `convertUint8ArrayToBase64`. -/
def base64Alphabet : List Char :=
  "ABCDEFGHIJKLMNOPQRSTUVWXYZabcdefghijklmnopqrstuvwxyz0123456789+/".toList

/-- Character of the base64 alphabet at a 6-bit index. -/
def base64Char (n : Nat) : Char :=
  base64Alphabet.getD n 'A'

/-- Embedding of the provider-utils helper `convertUint8ArrayToBase64`
(standard base64 with `=` padding; bytes reduced mod 256). -/
def convertUint8ArrayToBase64 : List Nat → String
  | [] => ""
  | [b1] =>
      let n1 := b1 % 256
      String.mk [base64Char (n1 / 4), base64Char (n1 % 4 * 16)] ++ "=="
  | [b1, b2] =>
      let n1 := b1 % 256
      let n2 := b2 % 256
      String.mk [base64Char (n1 / 4), base64Char (n1 % 4 * 16 + n2 / 16),
        base64Char (n2 % 16 * 4)] ++ "="
  | b1 :: b2 :: b3 :: rest =>
      let n1 := b1 % 256
      let n2 := b2 % 256
      let n3 := b3 % 256
      String.mk [base64Char (n1 / 4), base64Char (n1 % 4 * 16 + n2 / 16),
          base64Char (n2 % 16 * 4 + n3 / 64), base64Char (n3 % 64)]
        ++ convertUint8ArrayToBase64 rest

/-- Content part of a user turn: text or file (`mediaType` is optional in
the framework's type). -/
inductive UserPart where
  | text (text : String) (providerOptions : SharedProviderOptions) : UserPart
  | file (mediaType : Option String) (data : FileData)
      (providerOptions : SharedProviderOptions) : UserPart
deriving Repr

/-- Content part of an assistant turn. -/
inductive AssistantPart where
  | text (text : String) (providerOptions : SharedProviderOptions) :
      AssistantPart
  | toolCall (toolCallId : String) (toolName : String) (input : Json)
      (providerOptions : SharedProviderOptions) : AssistantPart
  | file (mediaType : Option String) (data : FileData)
      (providerOptions : SharedProviderOptions) : AssistantPart
  | reasoning (text : String) (providerOptions : SharedProviderOptions) :
      AssistantPart
  | toolResult (toolCallId : String)
      (providerOptions : SharedProviderOptions) : AssistantPart
deriving Repr

/-- The V2 output of a tool-result part: text / error-text pass the string
through, json / error-json are JSON-serialized. -/
inductive ToolOutput where
  | text (value : String) : ToolOutput
  | errorText (value : String) : ToolOutput
  | json (value : Json) : ToolOutput
  | errorJson (value : Json) : ToolOutput
deriving Repr

/-- One tool-result part of a tool turn. -/
structure ToolResultPart where
  toolCallId : String
  output : ToolOutput
  providerOptions : SharedProviderOptions
deriving Repr

/-- One turn of the framework prompt (`LanguageModelV2Prompt` entry),
tagged by role. -/
inductive PromptMessage where
  | system (content : String) (providerOptions : SharedProviderOptions) :
      PromptMessage
  | user (content : List UserPart)
      (providerOptions : SharedProviderOptions) : PromptMessage
  | assistant (content : List AssistantPart)
      (providerOptions : SharedProviderOptions) : PromptMessage
  | tool (content : List ToolResultPart)
      (providerOptions : SharedProviderOptions) : PromptMessage
deriving Repr

/-- Typed sub-part of a vendor message's array-shaped `content`.  `extra`
holds the part-level options spread onto the sub-part object. -/
inductive QwenContentPart where
  | text (text : String) (extra : OptionsBag) : QwenContentPart
  | imageUrl (url : String) (extra : OptionsBag) : QwenContentPart
deriving Repr

/-- Entry of a vendor message's `tool_calls` array (`type` is always
`"function"`).  `extra` holds the part-level options spread onto it. -/
structure QwenToolCall where
  id : String
  name : String
  arguments : String
  extra : OptionsBag
deriving Repr

/-- `content` of a vendor chat message: a plain string or an array of
typed sub-parts. -/
inductive MessageContent where
  | str (s : String) : MessageContent
  | parts (ps : List QwenContentPart) : MessageContent
deriving Repr

/-- Whether a vendor message `content` is the collapsed plain string. -/
def MessageContent.isString : MessageContent → Bool
  | .str _ => true
  | .parts _ => false

/-- A vendor chat message.  `extra` holds the options bag spread at the
top level of the message object. -/
structure QwenMessage where
  role : String
  content : MessageContent
  tool_calls : Option (List QwenToolCall)
  tool_call_id : Option String
  extra : OptionsBag
deriving Repr

/-- Errors thrown during conversion (`UnsupportedFunctionalityError` /
`InvalidPromptError`). -/
inductive ConvError where
  | unsupportedFunctionality (functionality : String) : ConvError
  | invalidPrompt (message : String) : ConvError
deriving Repr

/-- Embedding of the user-part mapping inside `convertToQwenChatMessages`
(the `content.map(part => ...)` callback of the multi-part user path). -/
def convertUserPart : UserPart → Except ConvError QwenContentPart
  | .text s ppo => .ok (.text s (getQwenOptions ppo))
  | .file mediaType data ppo =>
      match mediaType with
      | some mt =>
          if strStartsWith mt "image/" then
            let url :=
              match data with
              | .str s =>
                  if strStartsWith s "http" then s
                  else "data:" ++ mt ++ ";base64," ++ s
              | .url u => u
              | .bytes b =>
                  "data:" ++ mt ++ ";base64," ++ convertUint8ArrayToBase64 b
            .ok (.imageUrl url (getQwenOptions ppo))
          else
            .error (.unsupportedFunctionality
              "Non-image file content parts in user messages")
      | none =>
          .error (.unsupportedFunctionality
            "Non-image file content parts in user messages")

/-- Embedding of the assistant-turn loop of `convertToQwenChatMessages`:
accumulate concatenated text and the `tool_calls` array in order. -/
def convertAssistantParts :
    List AssistantPart → String → List QwenToolCall →
    Except ConvError (String × List QwenToolCall)
  | [], text, toolCalls => .ok (text, toolCalls)
  | .text s _ :: rest, text, toolCalls =>
      convertAssistantParts rest (text ++ s) toolCalls
  | .toolCall id name input ppo :: rest, text, toolCalls =>
      convertAssistantParts rest text
        (toolCalls ++
          [{ id := id
             name := name
             arguments := input.stringify
             extra := getQwenOptions ppo }])
  | .file _ _ _ :: _, _, _ =>
      .error (.unsupportedFunctionality "file content parts in assistant messages")
  | .reasoning _ _ :: _, _, _ =>
      .error (.unsupportedFunctionality
        "reasoning content parts in assistant messages")
  | .toolResult _ _ :: _, _, _ =>
      .error (.unsupportedFunctionality
        "tool-result content parts in assistant messages")

/-- The string `content` of a vendor tool message, from the V2 output. -/
def toolOutputContent : ToolOutput → String
  | .text v => v
  | .errorText v => v
  | .json v => v.stringify
  | .errorJson v => v.stringify

/-- Embedding of one iteration of the `convertToQwenChatMessages` loop:
the messages pushed for a single prompt turn.  A tool turn pushes one
message per tool-result part; every other role pushes exactly one. -/
def convertMessage : PromptMessage → Except ConvError (List QwenMessage)
  | .system content po =>
      .ok [{ role := "system"
             content := .str content
             tool_calls := none
             tool_call_id := none
             extra := getQwenOptions po }]
  | .user content po =>
      match content with
      | [.text s ppo] =>
          -- single text part: collapsed to plain string content, with the
          -- part-level options spread onto the message
          .ok [{ role := "user"
                 content := .str s
                 tool_calls := none
                 tool_call_id := none
                 extra := getQwenOptions ppo }]
      | _ => do
          let ps ← content.mapM convertUserPart
          .ok [{ role := "user"
                 content := .parts ps
                 tool_calls := none
                 tool_call_id := none
                 extra := getQwenOptions po }]
  | .assistant content po => do
      let (text, toolCalls) ← convertAssistantParts content "" []
      .ok [{ role := "assistant"
             content := .str text
             tool_calls := if toolCalls.length > 0 then some toolCalls else none
             tool_call_id := none
             extra := getQwenOptions po }]
  | .tool content _po =>
      .ok (content.map fun toolResponse =>
        { role := "tool"
          content := .str (toolOutputContent toolResponse.output)
          tool_calls := none
          tool_call_id := some toolResponse.toolCallId
          extra := getQwenOptions toolResponse.providerOptions })

/-- Embedding of `convertToQwenChatMessages`: convert each prompt turn in
order and concatenate the pushed vendor messages. -/
def convertToQwenChatMessages :
    List PromptMessage → Except ConvError (List QwenMessage)
  | [] => .ok []
  | m :: rest => do
      let ms ← convertMessage m
      let msRest ← convertToQwenChatMessages rest
      .ok (ms ++ msRest)

/-! ## Completion model (`qwen-completion-language-model.ts`) -/

/-- A non-fatal warning collected by `getArgs`
(`LanguageModelV2CallWarning` of kind `unsupported-setting`). -/
inductive CompletionWarning where
  | unsupportedSetting (setting : String) (details : Option String) :
      CompletionWarning
deriving Repr, DecidableEq

/-- A tool definition supplied in the call options (only its presence
matters to the completion adapter, which rejects all tools). -/
structure ToolDefinition where
  name : String
deriving Repr, DecidableEq

/-- The `toolChoice` call option. -/
inductive ToolChoice where
  | auto : ToolChoice
  | none : ToolChoice
  | required : ToolChoice
  | tool (toolName : String) : ToolChoice
deriving Repr, DecidableEq

/-- `QwenCompletionSettings` fields that flow into the request body. -/
structure QwenCompletionSettings where
  echo : Option Bool
  logitBias : Option (List (Nat × Int))
  suffix : Option String
  user : Option String
deriving Repr

/-- `QwenCompletionLanguageModel`: model id, settings, provider name. -/
structure QwenCompletionLanguageModel where
  modelId : String
  settings : QwenCompletionSettings
  provider : String
deriving Repr

/-- `provider.split(".")[0].trim()`. -/
def providerOptionsNameOf (provider : String) : String :=
  (((provider.splitOn ".").headD "").trim)

/-- `LanguageModelV2CallOptions` fields consumed by the completion
adapter's `getArgs`.  Sampling parameters are opaque pass-through JS
numbers, embedded as integers (the adapter never computes with them).
`responseFormat` is embedded by its `type` field. -/
structure CompletionCallOptions where
  prompt : List PromptMessage
  maxOutputTokens : Option Nat
  temperature : Option Int
  topP : Option Int
  topK : Option Int
  frequencyPenalty : Option Int
  presencePenalty : Option Int
  stopSequences : Option (List String)
  responseFormat : Option String
  seed : Option Nat
  providerOptions : SharedProviderOptions
  tools : Option (List ToolDefinition)
  toolChoice : Option ToolChoice
deriving Repr

/-- Modelled from the spec: text of a user content part for the Prompt
Flattener (§4.2); a file part in a user turn is unsupported.  The source
file `convert-to-qwen-completion-prompt.ts` is not part of this
repository snapshot. -/
def completionUserPartText : UserPart → Except ConvError String
  | .text t _ => .ok t
  | .file _ _ _ =>
      .error (.unsupportedFunctionality "file content parts in user messages")

/-- Modelled from the spec: text of an assistant content part for the
Prompt Flattener (§4.2); tool-call, tool-result, file and reasoning parts
are unsupported. -/
def completionAssistantPartText : AssistantPart → Except ConvError String
  | .text t _ => .ok t
  | _ =>
      .error (.unsupportedFunctionality
        "non-text content parts in assistant messages")

/-- Modelled from the spec: render the user/assistant turns following the
optional leading system turn as labelled blocks (§4.2, default labels);
a system turn in any later position and tool turns are invalid input. -/
def renderCompletionTurns : List PromptMessage → Except ConvError String
  | [] => .ok ""
  | .system _ _ :: _ =>
      .error (.invalidPrompt "unexpected system message")
  | .user parts _ :: rest => do
      let texts ← parts.mapM completionUserPartText
      let r ← renderCompletionTurns rest
      .ok ("user:\n" ++ String.join texts ++ "\n\n" ++ r)
  | .assistant parts _ :: rest => do
      let texts ← parts.mapM completionAssistantPartText
      let r ← renderCompletionTurns rest
      .ok ("assistant:\n" ++ String.join texts ++ "\n\n" ++ r)
  | .tool _ _ :: _ =>
      .error (.invalidPrompt "unexpected tool message")

/-- Modelled from the spec: `convertToQwenCompletionPrompt` (Prompt
Flattener, §4.2); its source file is not part of this repository
snapshot.  Fast path: input format `"prompt"` with a single user turn of
exactly one text part returns that text verbatim with no stop sequences.
General path: optional leading system preamble, labelled turn blocks, a
trailing `assistant:` continuation line, and stop list `["\nuser:"]`. -/
def convertToQwenCompletionPrompt (prompt : List PromptMessage)
    (inputFormat : String) : Except ConvError (String × List String) :=
  match inputFormat, prompt with
  | "prompt", [.user [.text s _] _] => .ok (s, [])
  | _, .system c _ :: rest => do
      let body ← renderCompletionTurns rest
      .ok (c ++ "\n\n" ++ body ++ "assistant:\n", ["\nuser:"])
  | _, msgs => do
      let body ← renderCompletionTurns msgs
      .ok (body ++ "assistant:\n", ["\nuser:"])

/-- The vendor request body built by the completion adapter's `getArgs`.
`extra` holds the spread provider options. -/
structure CompletionArgs where
  model : String
  echo : Option Bool
  logit_bias : Option (List (Nat × Int))
  suffix : Option String
  user : Option String
  max_tokens : Option Nat
  temperature : Option Int
  top_p : Option Int
  frequency_penalty : Option Int
  presence_penalty : Option Int
  seed : Option Nat
  extra : OptionsBag
  prompt : String
  stop : Option (List String)
deriving Repr

/-- Embedding of `QwenCompletionLanguageModel.getArgs`: collect the
non-fatal warnings (`topK`, non-text `responseFormat`), throw a hard
`UnsupportedFunctionalityError` on tools / tool-choice, then flatten the
prompt and build the argument object.  Producing `.ok` models proceeding
to the network call with those arguments. -/
def QwenCompletionLanguageModel.getArgs (m : QwenCompletionLanguageModel)
    (opts : CompletionCallOptions) :
    Except ConvError (CompletionArgs × List CompletionWarning) :=
  let warnings : List CompletionWarning :=
    (if opts.topK.isSome then [.unsupportedSetting "topK" none] else [])
      ++ (match opts.responseFormat with
          | some t =>
              if t ≠ "text" then
                [.unsupportedSetting "responseFormat"
                  (some "JSON response format is not supported.")]
              else []
          | none => [])
  if (opts.tools.getD []).length > 0 then
    .error (.unsupportedFunctionality "tools")
  else if opts.toolChoice.isSome then
    .error (.unsupportedFunctionality "toolChoice")
  else do
    let (completionPrompt, stopSequences) ←
      convertToQwenCompletionPrompt opts.prompt "prompt"
    let stop := stopSequences ++ opts.stopSequences.getD []
    .ok
      ({ model := m.modelId
         echo := m.settings.echo
         logit_bias := m.settings.logitBias
         suffix := m.settings.suffix
         user := m.settings.user
         max_tokens := opts.maxOutputTokens
         temperature := opts.temperature
         top_p := opts.topP
         frequency_penalty := opts.frequencyPenalty
         presence_penalty := opts.presencePenalty
         seed := opts.seed
         extra :=
           lookupProviderOptions opts.providerOptions
             (providerOptionsNameOf m.provider)
         prompt := completionPrompt
         stop := if stop.length > 0 then some stop else none },
        warnings)

/-! ## Stream transcoder (`QwenChatLanguageModel.doStream` transform)

The `TransformStream` of `doStream` is embedded as an explicit state
machine.  The external JSON-completeness test `isParsableJson` is taken
as a parameter.  `generateId` is modelled by a per-call counter.  Events
additionally record the tool-call `index` driving the emission (a ghost
annotation of the loop variable; the wire event carries only the id). -/

/-- The per-index tool-call accumulator of `doStream`. -/
structure ToolCallAcc where
  id : String
  name : String
  arguments : String
  hasFinished : Bool
deriving Repr, DecidableEq

/-- The mutable state closed over by the `doStream` transform. -/
structure TranscoderState where
  toolCalls : Nat → Option ToolCallAcc
  finishReason : LanguageModelV3FinishReason
  usage : LanguageModelV3Usage
  isFirstChunk : Bool
  hasStreamStarted : Bool
  textId : Option String
  reasoningId : Option String
  nextId : Nat

/-- `toolCalls[index] = acc`. -/
def TranscoderState.setToolCall (s : TranscoderState) (i : Nat)
    (acc : ToolCallAcc) : TranscoderState :=
  { s with toolCalls := fun j => if j = i then some acc else s.toolCalls j }

/-- Model of `generateId`: a fresh id from the per-call counter. -/
def TranscoderState.genId (s : TranscoderState) : String × TranscoderState :=
  ("id-" ++ toString s.nextId, { s with nextId := s.nextId + 1 })

/-- A canonical stream lifecycle event (`LanguageModelV3StreamPart`).
Tool events carry the ghost `index`. -/
inductive StreamEvent where
  | error (message : String) : StreamEvent
  | streamStart (warnings : List String) : StreamEvent
  | responseMetadata (id : Option String) (modelId : Option String)
      (created : Option Nat) : StreamEvent
  | reasoningStart (id : String) : StreamEvent
  | reasoningDelta (id : String) (delta : String) : StreamEvent
  | reasoningEnd (id : String) : StreamEvent
  | textStart (id : String) : StreamEvent
  | textDelta (id : String) (delta : String) : StreamEvent
  | textEnd (id : String) : StreamEvent
  | toolInputStart (index : Nat) (id : String) (toolName : String) :
      StreamEvent
  | toolInputDelta (index : Nat) (id : String) (delta : String) : StreamEvent
  | toolInputEnd (index : Nat) (id : String) : StreamEvent
  | toolCall (index : Nat) (toolCallId : String) (toolName : String)
      (input : String) : StreamEvent
  | finish (finishReason : LanguageModelV3FinishReason)
      (usage : LanguageModelV3Usage) : StreamEvent
deriving Repr, DecidableEq

/-- `function` of a streamed tool-call delta. -/
structure ChunkFunction where
  name : Option String
  arguments : Option String
deriving Repr, DecidableEq

/-- One entry of `delta.tool_calls` in a stream chunk. -/
structure ChunkToolCallDelta where
  index : Nat
  id : Option String
  type : Option String
  function : ChunkFunction
deriving Repr, DecidableEq

/-- `delta` of a stream chunk choice. -/
structure ChunkDelta where
  content : Option String
  reasoning_content : Option String
  tool_calls : Option (List ChunkToolCallDelta)
deriving Repr, DecidableEq

/-- One entry of `choices` in a stream chunk. -/
structure ChunkChoice where
  delta : Option ChunkDelta
  finish_reason : Option String
deriving Repr, DecidableEq

/-- `usage` of a stream chunk. -/
structure ChunkUsage where
  prompt_tokens : Option Nat
  completion_tokens : Option Nat
deriving Repr, DecidableEq

/-- A successfully parsed non-error stream chunk (the data branch of the
chunk schema). -/
structure ChunkValue where
  id : Option String
  created : Option Nat
  model : Option String
  choices : List ChunkChoice
  usage : Option ChunkUsage
deriving Repr, DecidableEq

/-- One element of the parsed SSE stream fed to the transform:
a parse failure (`chunk.success === false`), a vendor error object
(`value.object === "error"`), or a data chunk. -/
inductive StreamChunk where
  | failure (error : String) : StreamChunk
  | errorValue (message : String) : StreamChunk
  | success (value : ChunkValue) : StreamChunk
deriving Repr, DecidableEq

/-- `InvalidResponseDataError` thrown by the transform. -/
inductive TranscoderError where
  | invalidResponseData (message : String) : TranscoderError
deriving Repr, DecidableEq

/-- Embedding of one iteration of the `delta.tool_calls` loop in the
`doStream` transform. -/
def processOneToolCallDelta (isParsableJson : String → Bool)
    (tc : ChunkToolCallDelta) (s : TranscoderState) :
    Except TranscoderError (TranscoderState × List StreamEvent) :=
  match s.toolCalls tc.index with
  | none =>
      if tc.type ≠ some "function" then
        .error (.invalidResponseData "Expected 'function' type.")
      else
        match tc.id with
        | none => .error (.invalidResponseData "Expected 'id' to be a string.")
        | some id =>
            match tc.function.name with
            | none =>
                .error
                  (.invalidResponseData "Expected 'function.name' to be a string.")
            | some name =>
                let args := tc.function.arguments.getD ""
                let startEvs := [StreamEvent.toolInputStart tc.index id name]
                let deltaEvs :=
                  if args.length > 0 then
                    [StreamEvent.toolInputDelta tc.index id args]
                  else []
                if isParsableJson args then
                  .ok (s.setToolCall tc.index ⟨id, name, args, true⟩,
                    startEvs ++ deltaEvs ++
                      [.toolInputEnd tc.index id, .toolCall tc.index id name args])
                else
                  .ok (s.setToolCall tc.index ⟨id, name, args, false⟩,
                    startEvs ++ deltaEvs)
  | some acc =>
      if acc.hasFinished then
        .ok (s, [])
      else
        let newArgs :=
          match tc.function.arguments with
          | some a => acc.arguments ++ a
          | none => acc.arguments
        let deltaEv :=
          [StreamEvent.toolInputDelta tc.index acc.id
            (tc.function.arguments.getD "")]
        if isParsableJson newArgs then
          .ok (s.setToolCall tc.index ⟨acc.id, acc.name, newArgs, true⟩,
            deltaEv ++
              [.toolInputEnd tc.index acc.id,
               .toolCall tc.index acc.id acc.name newArgs])
        else
          .ok (s.setToolCall tc.index ⟨acc.id, acc.name, newArgs, false⟩,
            deltaEv)

/-- The `delta.tool_calls` loop: iterate the deltas in order; a throw
aborts the loop (events already enqueued stay delivered, the failing
iteration enqueues nothing before throwing). -/
def processToolCallDeltas (isParsableJson : String → Bool) :
    List ChunkToolCallDelta → TranscoderState →
    List StreamEvent × Except TranscoderError TranscoderState
  | [], s => ([], .ok s)
  | tc :: rest, s =>
      match processOneToolCallDelta isParsableJson tc s with
      | .error e => ([], .error e)
      | .ok (s₁, evs₁) =>
          let (evs₂, r) := processToolCallDeltas isParsableJson rest s₁
          (evs₁ ++ evs₂, r)

/-- The `if (!hasStreamStarted)` block of the transform: emit
`stream-start` (carrying the accumulated warnings) once. -/
def streamStartStep (warnings : List String) (s : TranscoderState) :
    List StreamEvent × TranscoderState :=
  if !s.hasStreamStarted then
    ([.streamStart warnings], { s with hasStreamStarted := true })
  else ([], s)

/-- The `if (isFirstChunk)` block of the transform: emit
`response-metadata` once, from the first chunk's identifying fields. -/
def metadataStep (value : ChunkValue) (s : TranscoderState) :
    List StreamEvent × TranscoderState :=
  if s.isFirstChunk then
    ([.responseMetadata value.id value.model value.created],
      { s with isFirstChunk := false })
  else ([], s)

/-- The `if (value.usage != null)` block: track the latest-seen usage. -/
def usageStep (value : ChunkValue) (s : TranscoderState) : TranscoderState :=
  match value.usage with
  | some u => { s with usage := buildUsage u.prompt_tokens u.completion_tokens }
  | none => s

/-- The `if (choice?.finish_reason != null)` block: track the latest-seen
finish reason. -/
def finishReasonStep (choice : Option ChunkChoice) (s : TranscoderState) :
    TranscoderState :=
  match choice with
  | some ch =>
      match ch.finish_reason with
      | some fr => { s with finishReason := mapQwenFinishReason (some fr) }
      | none => s
  | none => s

/-- The `if (delta.reasoning_content != null)` block: lazily start the
reasoning sub-stream, then forward the fragment as a delta. -/
def reasoningStep (delta : ChunkDelta) (s : TranscoderState) :
    List StreamEvent × TranscoderState :=
  match delta.reasoning_content with
  | some rc =>
      match s.reasoningId with
      | some rid => ([.reasoningDelta rid rc], s)
      | none =>
          let (rid, s') := s.genId
          ([.reasoningStart rid, .reasoningDelta rid rc],
            { s' with reasoningId := some rid })
  | none => ([], s)

/-- The `if (delta.content != null)` block: lazily start the text
sub-stream, then forward the fragment as a delta. -/
def textStep (delta : ChunkDelta) (s : TranscoderState) :
    List StreamEvent × TranscoderState :=
  match delta.content with
  | some c =>
      match s.textId with
      | some tid => ([.textDelta tid c], s)
      | none =>
          let (tid, s') := s.genId
          ([.textStart tid, .textDelta tid c], { s' with textId := some tid })
  | none => ([], s)

/-- Embedding of the `transform` callback of `doStream`: the events it
enqueues (in order) and the successor state, or the thrown error.  A
thrown error still delivers the events enqueued before the throw. -/
def transformChunk (isParsableJson : String → Bool) (warnings : List String)
    (chunk : StreamChunk) (s : TranscoderState) :
    List StreamEvent × Except TranscoderError TranscoderState :=
  match chunk with
  | .failure err => ([.error err], .ok s)
  | .errorValue msg => ([.error msg], .ok s)
  | .success value =>
      let r0 := streamStartStep warnings s
      let r1 := metadataStep value r0.2
      let s2 := usageStep value r1.2
      let s3 := finishReasonStep value.choices.head? s2
      match value.choices.head? with
      | none => (r0.1 ++ r1.1, .ok s3)
      | some ch =>
          match ch.delta with
          | none => (r0.1 ++ r1.1, .ok s3)
          | some delta =>
              let r2 := reasoningStep delta s3
              let r3 := textStep delta r2.2
              match delta.tool_calls with
              | none => (r0.1 ++ r1.1 ++ r2.1 ++ r3.1, .ok r3.2)
              | some tcs =>
                  let r4 := processToolCallDeltas isParsableJson tcs r3.2
                  (r0.1 ++ r1.1 ++ r2.1 ++ r3.1 ++ r4.1, r4.2)

/-- Embedding of the `flush` callback of `doStream`. -/
def flushTranscoder (s : TranscoderState) : List StreamEvent :=
  (match s.textId with
   | some tid => [StreamEvent.textEnd tid]
   | none => [])
    ++ (match s.reasoningId with
        | some rid => [StreamEvent.reasoningEnd rid]
        | none => [])
    ++ [StreamEvent.finish s.finishReason s.usage]

/-- Initial values of the variables closed over by the transform. -/
def initialTranscoderState : TranscoderState :=
  { toolCalls := fun _ => none
    finishReason := { unified := "other", raw := none }
    usage := buildUsage none none
    isFirstChunk := true
    hasStreamStarted := false
    textId := none
    reasoningId := none
    nextId := 0 }

/-- Run the transform over a chunk list from a given state.  A thrown
error ends the run (later chunks unprocessed, no flush). -/
def runTranscoderAux (isParsableJson : String → Bool)
    (warnings : List String) :
    List StreamChunk → TranscoderState →
    List StreamEvent × Except TranscoderError TranscoderState
  | [], s => ([], .ok s)
  | c :: cs, s =>
      match transformChunk isParsableJson warnings c s with
      | (evs, .error e) => (evs, .error e)
      | (evs, .ok s') =>
          (evs ++ (runTranscoderAux isParsableJson warnings cs s').1,
            (runTranscoderAux isParsableJson warnings cs s').2)

/-- The full streaming pipeline: the ordered events delivered to the
consumer, plus the thrown error when the stream aborted (in which case
`flush` did not run). -/
def runTranscoder (isParsableJson : String → Bool) (warnings : List String)
    (chunks : List StreamChunk) :
    List StreamEvent × Option TranscoderError :=
  match runTranscoderAux isParsableJson warnings chunks initialTranscoderState with
  | (evs, .ok s) => (evs ++ flushTranscoder s, none)
  | (evs, .error e) => (evs, some e)

/-! ## Observation functions over streams and messages -/

/-- Whether a user turn's content is a single text part (the collapse
condition `content.length === 1 && content[0].type === "text"`). -/
def isSingleTextUser : List UserPart → Bool
  | [.text _ _] => true
  | _ => false

/-- Whether the accumulator at an index is marked finished. -/
def TranscoderState.finishedAt (s : TranscoderState) (i : Nat) : Bool :=
  match s.toolCalls i with
  | some acc => acc.hasFinished
  | none => false

/-- Number of events in a list satisfying a predicate. -/
def countEvents (q : StreamEvent → Bool) (evs : List StreamEvent) : Nat :=
  (evs.filter q).length

/-- Recognize a terminal `tool-call` event for a given index. -/
def isToolCallEventAt (i : Nat) : StreamEvent → Bool
  | .toolCall j _ _ _ => j = i
  | _ => false

/-- Recognize a `tool-input-end` event for a given index. -/
def isToolInputEndAt (i : Nat) : StreamEvent → Bool
  | .toolInputEnd j _ => j = i
  | _ => false

/-- Recognize any tool lifecycle event. -/
def isToolEvent : StreamEvent → Bool
  | .toolInputStart _ _ _ => true
  | .toolInputDelta _ _ _ => true
  | .toolInputEnd _ _ => true
  | .toolCall _ _ _ _ => true
  | _ => false

/-- Recognize a `stream-start` event. -/
def isStreamStartEvent : StreamEvent → Bool
  | .streamStart _ => true
  | _ => false

/-- Recognize an inline `error` event. -/
def isErrorEvent : StreamEvent → Bool
  | .error _ => true
  | _ => false

/-- Recognize a terminal `finish` event. -/
def isFinishEvent : StreamEvent → Bool
  | .finish _ _ => true
  | _ => false

/-- The finish-reason strings reported by a chunk (the transform only
consults the first choice). -/
def chunkFinishReasons : StreamChunk → List String
  | .success v =>
      match v.choices.head? with
      | some ch =>
          match ch.finish_reason with
          | some fr => [fr]
          | none => []
      | none => []
  | _ => []

/-- The usage pairs reported by a chunk. -/
def chunkUsages : StreamChunk → List (Option Nat × Option Nat)
  | .success v =>
      match v.usage with
      | some u => [(u.prompt_tokens, u.completion_tokens)]
      | none => []
  | _ => []

/-- The finish reason the flush must report: the mapped last-seen vendor
finish reason, or the unrecognized fallback if none was ever reported. -/
def lastFinishReasonSpec (chunks : List StreamChunk) :
    LanguageModelV3FinishReason :=
  match ((chunks.map chunkFinishReasons).flatten).getLast? with
  | some fr => mapQwenFinishReason (some fr)
  | none => { unified := "other", raw := none }

/-- The usage the flush must report: the last-seen usage, or all fields
absent if none was ever reported. -/
def lastUsageSpec (chunks : List StreamChunk) : LanguageModelV3Usage :=
  match ((chunks.map chunkUsages).flatten).getLast? with
  | some (pt, ct) => buildUsage pt ct
  | none => buildUsage none none

/-- A streamed tool-call delta carrying the identity fields whose absence
on first sighting makes the transform throw. -/
def toolCallDeltaWellFormed (tc : ChunkToolCallDelta) : Bool :=
  tc.type = some "function" && tc.id.isSome && tc.function.name.isSome

/-- A chunk that can never make the transform throw (all its processed
tool-call deltas carry identity fields). -/
def chunkWellFormed : StreamChunk → Bool
  | .success v =>
      match v.choices.head? with
      | some ch =>
          match ch.delta with
          | some d => (d.tool_calls.getD []).all toolCallDeltaWellFormed
          | none => true
      | none => true
  | _ => true

/-! ## Concrete inputs used by witnesses and counterexamples -/

/-- A data chunk with no choices and no identifying fields. -/
def emptyChunkValue : ChunkValue :=
  { id := none, created := none, model := none, choices := [], usage := none }

/-- JSON-completeness test used in witnesses: accepts exactly `"{}"`. -/
def emptyObjectOnly (s : String) : Bool :=
  s = "\x7b\x7d"

/-- First-sighting tool-call delta at index 0 with arguments `"{}"`. -/
def tcDeltaFirstW : ChunkToolCallDelta :=
  { index := 0
    id := some "call1"
    type := some "function"
    function := { name := some "f", arguments := some "\x7b\x7d" } }

/-- Trailing empty tool-call fragment at index 0. -/
def tcDeltaTrailingW : ChunkToolCallDelta :=
  { index := 0
    id := none
    type := none
    function := { name := none, arguments := some "" } }

/-- A data chunk carrying a single tool-call delta. -/
def chunkOfToolDelta (tc : ChunkToolCallDelta) : StreamChunk :=
  .success
    { id := some "r1"
      created := some 5
      model := some "m"
      choices :=
        [{ delta :=
             some { content := none, reasoning_content := none,
                    tool_calls := some [tc] }
           finish_reason := none }]
      usage := none }

/-- Embedding model instance with a configured batch limit of 2. -/
def embedModelW : QwenEmbeddingModel :=
  { modelId := "text-embedding-v3"
    settings := { dimensions := none, user := none }
    config :=
      { maxEmbeddingsPerCall := some 2
        provider := "qwen"
        baseURL := "https://dashscope.example" } }

/-- Embedding model instance with no configured batch limit. -/
def embedModelDefaultW : QwenEmbeddingModel :=
  { modelId := "text-embedding-v3"
    settings := { dimensions := none, user := none }
    config :=
      { maxEmbeddingsPerCall := none
        provider := "qwen"
        baseURL := "https://dashscope.example" } }

/-- Reranking model instance whose id has the OpenAI-compatible prefix. -/
def rerankModelOpenAIW : QwenRerankingModel :=
  { modelId := "qwen3-rerank-0.6b"
    settings := { instruct := some "rank", returnDocuments := none }
    config := { provider := "qwen", baseURL := "https://dashscope.example" } }

/-- Reranking model instance with a legacy (gte-rerank) id. -/
def rerankModelLegacyW : QwenRerankingModel :=
  { modelId := "gte-rerank-v2"
    settings := { instruct := none, returnDocuments := some true }
    config := { provider := "qwen", baseURL := "https://dashscope.example" } }

/-- Completion model instance used in witnesses. -/
def completionModelW : QwenCompletionLanguageModel :=
  { modelId := "qwen-turbo"
    settings := { echo := none, logitBias := none, suffix := none, user := none }
    provider := "qwen" }

/-- Completion call options with no tools, no tool choice, and `topK`. -/
def completionOptsTopKW : CompletionCallOptions :=
  { prompt := [.user [.text "Hello" none] none]
    maxOutputTokens := none
    temperature := none
    topP := none
    topK := some 40
    frequencyPenalty := none
    presencePenalty := none
    stopSequences := none
    responseFormat := none
    seed := none
    providerOptions := none
    tools := none
    toolChoice := none }

/-! # Theorems -/

/-- C6: the finish-reason mapper is total — for every input (including
null/undefined, embedded as `none`) the `unified` field is one of the
canonical values, never undefined; the four recognized vendor literals
map to their canonical counterparts, every other string maps to the
fallback `"other"`, and `raw` preserves the original input unchanged
(`none` exactly when the input was null/undefined). -/
theorem mapQwenFinishReason_total :
    (∀ fr : Option String,
        (mapQwenFinishReason fr).unified ∈ canonicalUnifiedValues ∧
        (mapQwenFinishReason fr).raw = fr) ∧
    mapQwenFinishReason (some "stop") = ⟨"stop", some "stop"⟩ ∧
    mapQwenFinishReason (some "length") = ⟨"length", some "length"⟩ ∧
    mapQwenFinishReason (some "tool_calls") = ⟨"tool-calls", some "tool_calls"⟩ ∧
    mapQwenFinishReason (some "content_filter")
      = ⟨"content-filter", some "content_filter"⟩ ∧
    (mapQwenFinishReason none).raw = none ∧
    ∀ s : String,
      s ∉ (["stop", "length", "tool_calls", "content_filter"] : List String) →
      (mapQwenFinishReason (some s)).unified = "other" := by
  refine ⟨fun fr => ⟨?_, rfl⟩, rfl, rfl, rfl, rfl, rfl, fun s hs => ?_⟩
  · simp only [mapQwenFinishReason, canonicalUnifiedValues]
    split <;> simp
  · simp only [mapQwenFinishReason]
    split <;> simp_all

/-- C6 witness: the unrecognized literal `"banana"` maps to the fallback
with `raw` preserved. -/
theorem mapQwenFinishReason_total_witness :
    ("banana" : String)
        ∉ (["stop", "length", "tool_calls", "content_filter"] : List String) ∧
      (mapQwenFinishReason (some "banana")).unified = "other" ∧
      (mapQwenFinishReason (some "banana")).raw = some "banana" :=
  ⟨by decide, mapQwenFinishReason_total.2.2.2.2.2.2 "banana" (by decide),
    (mapQwenFinishReason_total.1 (some "banana")).2⟩

/-- C8: `doEmbed` throws the typed too-many-values error — identifying
provider, model, configured limit, and the offending values — exactly
when the input count exceeds the configured maximum, and this happens
before any HTTP request (no request value is produced); within the limit
the validation passes and the request is built. -/
theorem doEmbed_batch_limit (m : QwenEmbeddingModel) (values : List String) :
    (values.length > m.maxEmbeddingsPerCall →
        m.doEmbedRequest values =
          .error
            { provider := m.config.provider
              modelId := m.modelId
              maxEmbeddingsPerCall := m.maxEmbeddingsPerCall
              values := values }) ∧
    (values.length ≤ m.maxEmbeddingsPerCall →
        m.doEmbedRequest values =
          .ok
            { url := m.config.baseURL ++ "/embeddings"
              model := m.modelId
              input := values
              encoding_format := "float"
              dimensions := m.settings.dimensions
              user := m.settings.user }) := by
  constructor
  · intro h
    simp [QwenEmbeddingModel.doEmbedRequest, h]
  · intro h
    simp [QwenEmbeddingModel.doEmbedRequest, Nat.not_lt.mpr h]

/-- C8 witness: with a configured limit of 2, three values are rejected
with the typed error and two values pass validation. -/
theorem doEmbed_batch_limit_witness :
    (["a", "b", "c"].length > embedModelW.maxEmbeddingsPerCall ∧
      embedModelW.doEmbedRequest ["a", "b", "c"] =
        .error
          { provider := "qwen"
            modelId := "text-embedding-v3"
            maxEmbeddingsPerCall := 2
            values := ["a", "b", "c"] }) ∧
    (["a", "b"].length ≤ embedModelW.maxEmbeddingsPerCall ∧
      embedModelW.doEmbedRequest ["a", "b"] =
        .ok
          { url := "https://dashscope.example/embeddings"
            model := "text-embedding-v3"
            input := ["a", "b"]
            encoding_format := "float"
            dimensions := none
            user := none }) :=
  ⟨⟨by decide, (doEmbed_batch_limit embedModelW ["a", "b", "c"]).1 (by decide)⟩,
    ⟨by decide, (doEmbed_batch_limit embedModelW ["a", "b"]).2 (by decide)⟩⟩

/-- C10: with no configured override the batch limit is exactly 2048 —
any input of at most 2048 values passes validation and any input of 2049
or more is rejected with the typed error carrying limit 2048. -/
theorem doEmbed_default_limit_2048 (m : QwenEmbeddingModel)
    (hm : m.config.maxEmbeddingsPerCall = none) (values : List String) :
    (values.length ≤ 2048 → ∃ r, m.doEmbedRequest values = .ok r) ∧
    (2049 ≤ values.length →
        m.doEmbedRequest values =
          .error
            { provider := m.config.provider
              modelId := m.modelId
              maxEmbeddingsPerCall := 2048
              values := values }) := by
  have hmax : m.maxEmbeddingsPerCall = 2048 := by
    simp [QwenEmbeddingModel.maxEmbeddingsPerCall, hm]
  constructor
  · intro h
    exact ⟨_, (doEmbed_batch_limit m values).2 (hmax ▸ h)⟩
  · intro h
    have := (doEmbed_batch_limit m values).1 (by omega)
    rwa [hmax] at this

/-- C10 witness: 2049 values are rejected by the default limit and 2048
values pass. -/
theorem doEmbed_default_limit_2048_witness :
    embedModelDefaultW.doEmbedRequest (List.replicate 2049 "x") =
        .error
          { provider := "qwen"
            modelId := "text-embedding-v3"
            maxEmbeddingsPerCall := 2048
            values := List.replicate 2049 "x" } ∧
      ∃ r, embedModelDefaultW.doEmbedRequest (List.replicate 2048 "x") = .ok r :=
  ⟨(doEmbed_default_limit_2048 embedModelDefaultW rfl
        (List.replicate 2049 "x")).2 (by rw [List.length_replicate]),
    (doEmbed_default_limit_2048 embedModelDefaultW rfl
        (List.replicate 2048 "x")).1 (by rw [List.length_replicate])⟩

/-- C7: the rerank adapter sends the flat OpenAI-compatible body
`{query, documents, top_n, instruct}` to `<base>/compatible-api/v1/reranks`
exactly when the model id starts with `"qwen3-rerank"`, and otherwise the
legacy nested `{input:{query,documents}, parameters:{...}}` body to
`<base>/api/v1/services/rerank/text-rerank/text-rerank`; and vendor
results are mapped to `{index, relevanceScore}` in exactly the
vendor-returned order with no re-sorting. -/
theorem rerank_dispatch_and_order (m : QwenRerankingModel)
    (documents : RerankDocuments) (query : String) (topN : Option Nat)
    (opts : OptionsBag) :
    (usesOpenAICompatibleAPI m.modelId = strStartsWith m.modelId "qwen3-rerank") ∧
    (usesOpenAICompatibleAPI m.modelId = true →
        m.buildRerankRequest documents query topN opts =
          .openaiCompat (m.config.baseURL ++ "/compatible-api/v1/reranks")
            { model := m.modelId
              documents := rerankDocumentTexts documents
              query := query
              top_n := topN
              instruct := m.settings.instruct
              extra := opts }) ∧
    (usesOpenAICompatibleAPI m.modelId = false →
        m.buildRerankRequest documents query topN opts =
          .dashscope
            (m.config.baseURL ++ "/api/v1/services/rerank/text-rerank/text-rerank")
            { model := m.modelId
              inputQuery := query
              inputDocuments := rerankDocumentTexts documents
              parametersTopN := topN
              parametersReturnDocuments := m.settings.returnDocuments
              extra := opts }) ∧
    ∀ (α : Type) (results : List (VendorRerankResult α)),
      (mapRerankResults results).map (fun e => e.index)
          = results.map (fun r => r.index) ∧
        (mapRerankResults results).map (fun e => e.relevanceScore)
          = results.map (fun r => r.relevance_score) := by
  refine ⟨rfl, fun h => ?_, fun h => ?_, fun α results => ?_⟩
  · simp [QwenRerankingModel.buildRerankRequest, h]
  · simp [QwenRerankingModel.buildRerankRequest, h]
  · simp [mapRerankResults]

/-- C7 witness: a `qwen3-rerank`-prefixed model goes to the
OpenAI-compatible endpoint with the flat body, a `gte-rerank` model to
the legacy endpoint with the nested body. -/
theorem rerank_dispatch_and_order_witness :
    rerankModelOpenAIW.buildRerankRequest (.text ["d1", "d2"]) "q" (some 2) [] =
        .openaiCompat "https://dashscope.example/compatible-api/v1/reranks"
          { model := "qwen3-rerank-0.6b"
            documents := ["d1", "d2"]
            query := "q"
            top_n := some 2
            instruct := some "rank"
            extra := [] } ∧
      rerankModelLegacyW.buildRerankRequest (.text ["d1", "d2"]) "q" none [] =
        .dashscope
          "https://dashscope.example/api/v1/services/rerank/text-rerank/text-rerank"
          { model := "gte-rerank-v2"
            inputQuery := "q"
            inputDocuments := ["d1", "d2"]
            parametersTopN := none
            parametersReturnDocuments := some true
            extra := [] } ∧
      (mapRerankResults [(⟨1, 9⟩ : VendorRerankResult Int), ⟨0, 7⟩]).map
          (fun e => e.index)
        = [1, 0] :=
  ⟨(rerank_dispatch_and_order rerankModelOpenAIW (.text ["d1", "d2"]) "q"
        (some 2) []).2.1 (by decide),
    (rerank_dispatch_and_order rerankModelLegacyW (.text ["d1", "d2"]) "q"
        none []).2.2.1 (by decide),
    by
      rw [(rerank_dispatch_and_order rerankModelLegacyW (.text []) "" none
            []).2.2.2 Int [⟨1, 9⟩, ⟨0, 7⟩] |>.1]
      rfl⟩

/-- C9: the completion adapter's argument construction throws a hard
unsupported-functionality error — before any network request — whenever a
non-empty tools list or any tool-choice value is supplied, while a
supplied `topK` only appends a non-fatal unsupported-setting warning and
the call proceeds. -/
theorem completion_tools_hard_error (m : QwenCompletionLanguageModel)
    (opts : CompletionCallOptions) :
    (∀ t ts, opts.tools = some (t :: ts) →
        m.getArgs opts = .error (.unsupportedFunctionality "tools")) ∧
    ((opts.tools = none ∨ opts.tools = some []) →
      ∀ tc, opts.toolChoice = some tc →
        m.getArgs opts = .error (.unsupportedFunctionality "toolChoice")) ∧
    ((opts.tools = none ∨ opts.tools = some []) → opts.toolChoice = none →
      ∀ k, opts.topK = some k →
      ∀ pr st, convertToQwenCompletionPrompt opts.prompt "prompt" = .ok (pr, st) →
      ∃ args warnings, m.getArgs opts = .ok (args, warnings) ∧
        CompletionWarning.unsupportedSetting "topK" none ∈ warnings) := by
  refine ⟨?_, ?_, ?_⟩
  · intro t ts h
    simp [QwenCompletionLanguageModel.getArgs, h]
  · intro htools tc htc
    rcases htools with h | h <;>
      simp [QwenCompletionLanguageModel.getArgs, h, htc]
  · intro htools htc k hk pr st hconv
    have h1 : ¬(opts.tools.getD []).length > 0 := by
      rcases htools with h | h <;> simp [h]
    unfold QwenCompletionLanguageModel.getArgs
    rw [if_neg h1, if_neg (by simp [htc]), hconv, hk]
    exact ⟨_, _, rfl, by simp⟩

/-- C9 witness: with the shared call options, adding one tool yields the
hard `tools` error, adding a tool choice yields the hard `toolChoice`
error, and `topK := 40` alone produces an `.ok` result carrying the
non-fatal `topK` warning. -/
theorem completion_tools_hard_error_witness :
    (completionModelW.getArgs
        { completionOptsTopKW with tools := some [{ name := "t" }] }
        = .error (.unsupportedFunctionality "tools")) ∧
    (completionModelW.getArgs
        { completionOptsTopKW with toolChoice := some .auto }
        = .error (.unsupportedFunctionality "toolChoice")) ∧
    ∃ args warnings,
      completionModelW.getArgs completionOptsTopKW = .ok (args, warnings) ∧
        CompletionWarning.unsupportedSetting "topK" none ∈ warnings :=
  ⟨(completion_tools_hard_error completionModelW
        { completionOptsTopKW with tools := some [{ name := "t" }] }).1
      { name := "t" } [] rfl,
    (completion_tools_hard_error completionModelW
        { completionOptsTopKW with toolChoice := some .auto }).2.1
      (Or.inl rfl) .auto rfl,
    (completion_tools_hard_error completionModelW completionOptsTopKW).2.2
      (Or.inl rfl) rfl 40 rfl "Hello" [] rfl⟩

/-- Helper: `Except` bind on a success value reduces to the
continuation. -/
theorem except_bind_ok {ε α β : Type} (a : α) (f : α → Except ε β) :
    ((Except.ok a : Except ε α) >>= f) = f a := rfl

/-- Helper: `Except` bind on an error short-circuits. -/
theorem except_bind_error {ε α β : Type} (e : ε) (f : α → Except ε β) :
    ((Except.error e : Except ε α) >>= f) = Except.error e := rfl

/-- Helper: a single-text user turn converts to one message with plain
string content carrying the part-level options bag. -/
theorem convertMessage_user_single_text (s : String)
    (ppo po : SharedProviderOptions) :
    convertMessage (.user [.text s ppo] po) =
      .ok [{ role := "user", content := .str s, tool_calls := none,
             tool_call_id := none, extra := getQwenOptions ppo }] := rfl

/-- Helper: a user turn whose content is not a single text part converts
(when conversion succeeds) to one message with array-shaped content and
the turn-level options bag. -/
theorem convertMessage_user_multi (parts : List UserPart)
    (po : SharedProviderOptions) (msgs : List QwenMessage)
    (h : isSingleTextUser parts = false)
    (hok : convertMessage (.user parts po) = .ok msgs) :
    ∃ ps, msgs =
      [{ role := "user", content := .parts ps, tool_calls := none,
         tool_call_id := none, extra := getQwenOptions po }] := by
  rcases parts with _ | ⟨p, rest⟩
  · exact ⟨[], (Except.ok.inj hok).symm⟩
  · rcases rest with _ | ⟨q, rest2⟩
    · rcases p with ⟨s, ppo⟩ | ⟨mt, d, ppo⟩
      · simp [isSingleTextUser] at h
      · simp only [convertMessage] at hok
        cases hmap : List.mapM convertUserPart [UserPart.file mt d ppo] with
        | error e =>
            rw [hmap, except_bind_error] at hok
            cases hok
        | ok ps =>
            rw [hmap, except_bind_ok] at hok
            exact ⟨ps, (Except.ok.inj hok).symm⟩
    · rcases p with ⟨s, ppo⟩ | ⟨mt, d, ppo⟩ <;>
      · simp only [convertMessage] at hok
        cases hmap : List.mapM convertUserPart (_ :: q :: rest2) with
        | error e =>
            rw [hmap, except_bind_error] at hok
            cases hok
        | ok ps =>
            rw [hmap, except_bind_ok] at hok
            exact ⟨ps, (Except.ok.inj hok).symm⟩

/-- C1 (amended): a user turn collapses to plain string `content` exactly
when it has a single text part — part-level metadata does not prevent the
collapse (it is spread onto the message) — and any other shape that
converts successfully produces array-shaped `content`. -/
theorem user_content_collapse (parts : List UserPart)
    (po : SharedProviderOptions) :
    (∀ s ppo, parts = [.text s ppo] →
        convertMessage (.user parts po) =
          .ok [{ role := "user", content := .str s, tool_calls := none,
                 tool_call_id := none, extra := getQwenOptions ppo }]) ∧
    (isSingleTextUser parts = false →
      ∀ msgs, convertMessage (.user parts po) = .ok msgs →
        ∃ ps, msgs =
          [{ role := "user", content := .parts ps, tool_calls := none,
             tool_call_id := none, extra := getQwenOptions po }]) := by
  constructor
  · rintro s ppo rfl
    exact convertMessage_user_single_text s ppo po
  · intro h msgs hok
    exact convertMessage_user_multi parts po msgs h hok

/-- C1 counterexample: a user turn with exactly one text part carrying
part-level metadata still collapses to plain string `content` (the claim
requires an array for that shape); the metadata is spread onto the
message. -/
theorem single_text_with_metadata_still_string :
    (convertToQwenChatMessages
        [.user [.text "hi" (some [("qwen", [("a", Json.num 1)])])] none]).map
        (fun ms => ms.map fun msg => (msg.content.isString, msg.extra))
      = .ok [(true, [("a", Json.num 1)])] := rfl

/-- C1 witness: the collapsed single-text shape and the two-part array
shape, at concrete inputs. -/
theorem user_content_collapse_witness :
    (convertMessage (.user [.text "hi" none] none) =
        .ok [{ role := "user", content := .str "hi", tool_calls := none,
               tool_call_id := none, extra := getQwenOptions none }]) ∧
    ∃ ps,
      ([{ role := "user",
          content := MessageContent.parts [.text "a" [], .text "b" []],
          tool_calls := none, tool_call_id := none,
          extra := [] }] : List QwenMessage) =
        [{ role := "user", content := .parts ps, tool_calls := none,
           tool_call_id := none, extra := getQwenOptions none }] :=
  ⟨(user_content_collapse [.text "hi" none] none).1 "hi" none rfl,
    (user_content_collapse [.text "a" none, .text "b" none] none).2 rfl
      [{ role := "user",
         content := .parts [.text "a" [], .text "b" []],
         tool_calls := none, tool_call_id := none, extra := [] }] rfl⟩

/-- C2 (amended): part-level options are what the single-text user path
and the tool path spread onto the message (turn-level options are dropped
there, not hoisted); turn-level options are hoisted onto system,
multi-part user, and assistant messages (where part-level options live on
the nested sub-objects, so the two bags never collide on one object). -/
theorem options_bag_placement :
    (∀ c po, convertMessage (.system c po) =
        .ok [{ role := "system", content := .str c, tool_calls := none,
               tool_call_id := none, extra := getQwenOptions po }]) ∧
    (∀ s ppo po, convertMessage (.user [.text s ppo] po) =
        .ok [{ role := "user", content := .str s, tool_calls := none,
               tool_call_id := none, extra := getQwenOptions ppo }]) ∧
    (∀ parts po msgs, isSingleTextUser parts = false →
        convertMessage (.user parts po) = .ok msgs →
        msgs.map (fun msg => msg.extra) = [getQwenOptions po]) ∧
    (∀ parts po text tcs,
        convertAssistantParts parts "" [] = .ok (text, tcs) →
        convertMessage (.assistant parts po) =
          .ok [{ role := "assistant", content := .str text,
                 tool_calls := if tcs.length > 0 then some tcs else none,
                 tool_call_id := none, extra := getQwenOptions po }]) ∧
    (∀ results po,
        (convertMessage (.tool results po)).map
            (fun ms => ms.map fun msg => msg.extra)
          = .ok (results.map fun tr => getQwenOptions tr.providerOptions)) := by
  refine ⟨fun c po => rfl, fun s ppo po => rfl, ?_, ?_, ?_⟩
  · intro parts po msgs h hok
    obtain ⟨ps, rfl⟩ := convertMessage_user_multi parts po msgs h hok
    rfl
  · intro parts po text tcs h
    simp only [convertMessage, h, except_bind_ok]
  · intro results po
    simp [convertMessage, Except.map, Function.comp]

/-- C2 counterexample: a key present only in the turn-level bag of a
single-text user turn is absent from the produced message (the claim
requires it to be hoisted). -/
theorem turn_level_options_dropped :
    convertToQwenChatMessages
        [.user [.text "hi" none] (some [("qwen", [("k", Json.num 1)])])]
      = .ok [{ role := "user", content := .str "hi", tool_calls := none,
               tool_call_id := none, extra := [] }] := rfl

/-- C2 witness: turn-level hoisting on a multi-part user turn and on an
assistant turn, at concrete inputs. -/
theorem options_bag_placement_witness :
    ([{ role := "user",
        content := MessageContent.parts [.text "a" [], .text "b" []],
        tool_calls := none, tool_call_id := none,
        extra := [("k", Json.num 1)] }] : List QwenMessage).map
        (fun msg => msg.extra)
        = [getQwenOptions (some [("qwen", [("k", Json.num 1)])])] ∧
      convertMessage
          (.assistant [.text "x" none] (some [("qwen", [("k", Json.num 2)])])) =
        .ok [{ role := "assistant", content := .str "x", tool_calls := none,
               tool_call_id := none,
               extra := getQwenOptions (some [("qwen", [("k", Json.num 2)])]) }] :=
  ⟨options_bag_placement.2.2.1 [.text "a" none, .text "b" none]
      (some [("qwen", [("k", Json.num 1)])])
      [{ role := "user",
         content := .parts [.text "a" [], .text "b" []],
         tool_calls := none, tool_call_id := none,
         extra := [("k", Json.num 1)] }] rfl rfl,
    options_bag_placement.2.2.2.1 [.text "x" none]
      (some [("qwen", [("k", Json.num 2)])]) "x" [] rfl⟩

/-! ### Stream transcoder: helper lemmas -/

/-- Counting distributes over concatenation of event lists. -/
theorem countEvents_append (q : StreamEvent → Bool)
    (a b : List StreamEvent) :
    countEvents q (a ++ b) = countEvents q a + countEvents q b := by
  simp [countEvents, List.filter_append]

/-- A list none of whose events satisfy `q` counts zero. -/
theorem countEvents_eq_zero (q : StreamEvent → Bool)
    (evs : List StreamEvent) (h : ∀ e ∈ evs, q e = false) :
    countEvents q evs = 0 := by
  simp only [countEvents, List.length_eq_zero]
  exact List.filter_eq_nil_iff.mpr (by simpa using h)

/-- States with the same accumulator table agree on `finishedAt`. -/
theorem finishedAt_congr {s₁ s₂ : TranscoderState}
    (h : s₁.toolCalls = s₂.toolCalls) (i : Nat) :
    s₁.finishedAt i = s₂.finishedAt i := by
  simp [TranscoderState.finishedAt, h]

/-- `finishedAt` after a `setToolCall`. -/
theorem finishedAt_setToolCall (s : TranscoderState) (j : Nat)
    (acc : ToolCallAcc) (i : Nat) :
    (s.setToolCall j acc).finishedAt i =
      if i = j then acc.hasFinished else s.finishedAt i := by
  simp only [TranscoderState.finishedAt, TranscoderState.setToolCall]
  by_cases hij : i = j <;> simp [hij]

/-- `streamStartStep` preserves the accumulator table, finish reason,
usage, the text/reasoning ids, always leaves the started flag set, emits
only the `stream-start` event, and behaves as the two `if` branches. -/
theorem streamStartStep_spec (w : List String) (s : TranscoderState) :
    (streamStartStep w s).2.toolCalls = s.toolCalls ∧
    (streamStartStep w s).2.finishReason = s.finishReason ∧
    (streamStartStep w s).2.usage = s.usage ∧
    (streamStartStep w s).2.textId = s.textId ∧
    (streamStartStep w s).2.reasoningId = s.reasoningId ∧
    (streamStartStep w s).2.hasStreamStarted = true ∧
    (s.hasStreamStarted = true → streamStartStep w s = ([], s)) ∧
    (s.hasStreamStarted = false →
      streamStartStep w s =
        ([.streamStart w], { s with hasStreamStarted := true })) ∧
    ∀ e ∈ (streamStartStep w s).1, e = .streamStart w := by
  unfold streamStartStep
  cases h : s.hasStreamStarted <;> simp [h]

/-- `metadataStep` preserves the accumulator table, finish reason, usage,
the text/reasoning ids and the started flag, and emits only the
`response-metadata` event. -/
theorem metadataStep_spec (v : ChunkValue) (s : TranscoderState) :
    (metadataStep v s).2.toolCalls = s.toolCalls ∧
    (metadataStep v s).2.finishReason = s.finishReason ∧
    (metadataStep v s).2.usage = s.usage ∧
    (metadataStep v s).2.textId = s.textId ∧
    (metadataStep v s).2.reasoningId = s.reasoningId ∧
    (metadataStep v s).2.hasStreamStarted = s.hasStreamStarted ∧
    ∀ e ∈ (metadataStep v s).1, e = .responseMetadata v.id v.model v.created := by
  unfold metadataStep
  cases h : s.isFirstChunk <;> simp [h]

/-- `usageStep` only changes the `usage` field. -/
theorem usageStep_spec (v : ChunkValue) (s : TranscoderState) :
    (usageStep v s).toolCalls = s.toolCalls ∧
    (usageStep v s).finishReason = s.finishReason ∧
    (usageStep v s).textId = s.textId ∧
    (usageStep v s).reasoningId = s.reasoningId ∧
    (usageStep v s).hasStreamStarted = s.hasStreamStarted ∧
    (usageStep v s).usage =
      (match v.usage with
       | some u => buildUsage u.prompt_tokens u.completion_tokens
       | none => s.usage) := by
  unfold usageStep
  cases v.usage <;> simp

/-- `finishReasonStep` only changes the `finishReason` field. -/
theorem finishReasonStep_spec (choice : Option ChunkChoice)
    (s : TranscoderState) :
    (finishReasonStep choice s).toolCalls = s.toolCalls ∧
    (finishReasonStep choice s).usage = s.usage ∧
    (finishReasonStep choice s).textId = s.textId ∧
    (finishReasonStep choice s).reasoningId = s.reasoningId ∧
    (finishReasonStep choice s).hasStreamStarted = s.hasStreamStarted ∧
    (finishReasonStep choice s).finishReason =
      (match choice with
       | some ch =>
           match ch.finish_reason with
           | some fr => mapQwenFinishReason (some fr)
           | none => s.finishReason
       | none => s.finishReason) := by
  unfold finishReasonStep
  rcases choice with _ | ch
  · simp
  · rcases h : ch.finish_reason with _ | fr <;> simp [h]

/-- `reasoningStep` preserves the accumulator table, finish reason,
usage and the started flag, and emits only reasoning events. -/
theorem reasoningStep_spec (delta : ChunkDelta) (s : TranscoderState) :
    (reasoningStep delta s).2.toolCalls = s.toolCalls ∧
    (reasoningStep delta s).2.finishReason = s.finishReason ∧
    (reasoningStep delta s).2.usage = s.usage ∧
    (reasoningStep delta s).2.hasStreamStarted = s.hasStreamStarted ∧
    ∀ e ∈ (reasoningStep delta s).1,
      (∃ id, e = .reasoningStart id) ∨ ∃ id d, e = .reasoningDelta id d := by
  unfold reasoningStep
  rcases delta.reasoning_content with _ | rc
  · simp
  · rcases h : s.reasoningId with _ | rid <;>
      simp [h, TranscoderState.genId]

/-- `textStep` preserves the accumulator table, finish reason, usage and
the started flag, and emits only text events. -/
theorem textStep_spec (delta : ChunkDelta) (s : TranscoderState) :
    (textStep delta s).2.toolCalls = s.toolCalls ∧
    (textStep delta s).2.finishReason = s.finishReason ∧
    (textStep delta s).2.usage = s.usage ∧
    (textStep delta s).2.hasStreamStarted = s.hasStreamStarted ∧
    ∀ e ∈ (textStep delta s).1,
      (∃ id, e = .textStart id) ∨ ∃ id d, e = .textDelta id d := by
  unfold textStep
  rcases delta.content with _ | c
  · simp
  · rcases h : s.textId with _ | tid <;>
      simp [h, TranscoderState.genId]

/-- Helper: membership in a conditional list with empty alternative. -/
theorem mem_ite_nil {α : Type} {c : Prop} [inst : Decidable c] {a : List α}
    {e : α} (he : e ∈ (if c then a else [])) : e ∈ a := by
  split at he
  · exact he
  · cases he

/-- One tool-call loop iteration emits only tool events and touches only
the accumulator table. -/
theorem processOne_shape (p : String → Bool) (tc : ChunkToolCallDelta)
    (s s' : TranscoderState) (evs : List StreamEvent)
    (h : processOneToolCallDelta p tc s = .ok (s', evs)) :
    (∀ e ∈ evs, isToolEvent e = true) ∧
    s'.finishReason = s.finishReason ∧
    s'.usage = s.usage ∧
    s'.hasStreamStarted = s.hasStreamStarted ∧
    s'.textId = s.textId ∧
    s'.reasoningId = s.reasoningId := by
  unfold processOneToolCallDelta at h
  split at h
  · split at h
    · exact Except.noConfusion h
    · split at h
      · exact Except.noConfusion h
      · split at h
        · exact Except.noConfusion h
        · simp only [] at h
          split at h <;>
          · obtain ⟨rfl, rfl⟩ := Prod.mk.inj (Except.ok.inj h)
            refine ⟨?_, rfl, rfl, rfl, rfl, rfl⟩
            intro e he
            rcases List.mem_cons.mp he with rfl | he2
            · rfl
            first
            | (rcases List.mem_append.mp he2 with he3 | he3
               · rcases List.mem_singleton.mp (mem_ite_nil he3) with rfl
                 rfl
               · rcases List.mem_cons.mp he3 with rfl | he4
                 · rfl
                 · rcases List.mem_cons.mp he4 with rfl | he5
                   · rfl
                   · cases he5)
            | (rcases List.mem_singleton.mp (mem_ite_nil he2) with rfl
               rfl)
  · split at h
    · obtain ⟨rfl, rfl⟩ := Prod.mk.inj (Except.ok.inj h)
      exact ⟨by simp, rfl, rfl, rfl, rfl, rfl⟩
    · simp only [] at h
      split at h <;>
      · obtain ⟨rfl, rfl⟩ := Prod.mk.inj (Except.ok.inj h)
        refine ⟨?_, rfl, rfl, rfl, rfl, rfl⟩
        intro e he
        first
        | (rcases List.mem_append.mp he with he2 | he2
           · rcases List.mem_singleton.mp he2 with rfl
             rfl
           · rcases List.mem_cons.mp he2 with rfl | he3
             · rfl
             · rcases List.mem_cons.mp he3 with rfl | he4
               · rfl
               · cases he4)
        | (rcases List.mem_singleton.mp he with rfl
           rfl)

/-- Counting on a cons cell. -/
theorem countEvents_cons (q : StreamEvent → Bool) (e : StreamEvent)
    (l : List StreamEvent) :
    countEvents q (e :: l) = (if q e then 1 else 0) + countEvents q l := by
  simp only [countEvents, List.filter_cons]
  split <;> simp [Nat.add_comm]

/-- Counting on a conditional list with empty alternative. -/
theorem countEvents_ite_nil (q : StreamEvent → Bool) (c : Prop)
    [inst : Decidable c] (a : List StreamEvent) :
    countEvents q (if c then a else []) = if c then countEvents q a else 0 := by
  split <;> simp [countEvents]

/-- One tool-call loop iteration emits at most one `tool-call` and one
`tool-input-end` per index: the count plus the prior finished flag is
bounded by the posterior finished flag. -/
theorem processOne_count (p : String → Bool) (tc : ChunkToolCallDelta)
    (s s' : TranscoderState) (evs : List StreamEvent) (i : Nat)
    (h : processOneToolCallDelta p tc s = .ok (s', evs)) :
    countEvents (isToolCallEventAt i) evs
        + (if s.finishedAt i = true then 1 else 0)
      ≤ (if s'.finishedAt i = true then 1 else 0) ∧
    countEvents (isToolInputEndAt i) evs
        + (if s.finishedAt i = true then 1 else 0)
      ≤ (if s'.finishedAt i = true then 1 else 0) := by
  unfold processOneToolCallDelta at h
  split at h
  · rename_i x heq
    split at h
    · exact Except.noConfusion h
    · split at h
      · exact Except.noConfusion h
      · split at h
        · exact Except.noConfusion h
        · simp only [] at h
          split at h <;>
          · obtain ⟨rfl, rfl⟩ := Prod.mk.inj (Except.ok.inj h)
            by_cases hij : i = tc.index
            · subst hij
              have hsf : s.finishedAt tc.index = false := by
                simp [TranscoderState.finishedAt, heq]
              constructor <;>
                simp [countEvents_cons, countEvents_append, countEvents_ite_nil,
                  countEvents, isToolCallEventAt, isToolInputEndAt,
                  finishedAt_setToolCall, hsf]
            · constructor <;>
                simp [countEvents_cons, countEvents_append, countEvents_ite_nil,
                  countEvents, isToolCallEventAt, isToolInputEndAt,
                  finishedAt_setToolCall, hij, Ne.symm hij]
  · rename_i x acc heq
    split at h
    · obtain ⟨rfl, rfl⟩ := Prod.mk.inj (Except.ok.inj h)
      simp [countEvents]
    · rename_i hfin
      simp only [] at h
      split at h <;>
      · obtain ⟨rfl, rfl⟩ := Prod.mk.inj (Except.ok.inj h)
        by_cases hij : i = tc.index
        · subst hij
          have hsf : s.finishedAt tc.index = false := by
            simp [TranscoderState.finishedAt, heq, eq_false_of_ne_true hfin]
          constructor <;>
            simp [countEvents_cons, countEvents_append, countEvents,
              isToolCallEventAt, isToolInputEndAt, finishedAt_setToolCall, hsf]
        · constructor <;>
            simp [countEvents_cons, countEvents_append, countEvents,
              isToolCallEventAt, isToolInputEndAt, finishedAt_setToolCall,
              hij, Ne.symm hij]


/-- A tool-call delta carrying all identity fields never makes the loop
iteration throw. -/
theorem processOne_wellFormed_ok (p : String → Bool) (tc : ChunkToolCallDelta)
    (s : TranscoderState) (hwf : toolCallDeltaWellFormed tc = true) :
    ∃ r, processOneToolCallDelta p tc s = .ok r := by
  unfold toolCallDeltaWellFormed at hwf
  simp only [Bool.and_eq_true, decide_eq_true_eq, Option.isSome_iff_exists] at hwf
  obtain ⟨⟨hty, id, hid⟩, name, hname⟩ := hwf
  unfold processOneToolCallDelta
  split
  · rw [if_neg (by simp [hty]), hid, hname]
    simp only []
    split <;> exact ⟨_, rfl⟩
  · split
    · exact ⟨_, rfl⟩
    · simp only []
      split <;> exact ⟨_, rfl⟩

/-- The tool-call loop emits only tool events and preserves every state
field other than the accumulator table. -/
theorem processList_shape (p : String → Bool) (tcs : List ChunkToolCallDelta) :
    ∀ (s : TranscoderState),
      (∀ e ∈ (processToolCallDeltas p tcs s).1, isToolEvent e = true) ∧
      (∀ s', (processToolCallDeltas p tcs s).2 = .ok s' →
        s'.finishReason = s.finishReason ∧
        s'.usage = s.usage ∧
        s'.hasStreamStarted = s.hasStreamStarted ∧
        s'.textId = s.textId ∧
        s'.reasoningId = s.reasoningId) := by
  induction tcs with
  | nil =>
      intro s
      refine ⟨?_, ?_⟩
      · intro e he; cases he
      · intro s' h; cases h; exact ⟨rfl, rfl, rfl, rfl, rfl⟩
  | cons tc rest ih =>
      intro s
      unfold processToolCallDeltas
      cases hone : processOneToolCallDelta p tc s with
      | error e =>
          refine ⟨?_, ?_⟩
          · intro e' he; cases he
          · intro s' h; cases h
      | ok r =>
          obtain ⟨s₁, evs₁⟩ := r
          obtain ⟨h1, h2, h3, h4, h5, h6⟩ := processOne_shape p tc s s₁ evs₁ hone
          constructor
          · intro e he
            simp only at he
            rcases List.mem_append.mp he with he | he
            · exact h1 e he
            · exact ((ih s₁).1) e he
          · intro s' h
            simp only at h
            obtain ⟨g1, g2, g3, g4, g5⟩ := (ih s₁).2 s' h
            exact ⟨g1.trans h2, g2.trans h3, g3.trans h4, g4.trans h5, g5.trans h6⟩

/-- The tool-call loop emits at most one `tool-call` and one
`tool-input-end` per index, tracked by the finished flag. -/
theorem processList_count (p : String → Bool) (tcs : List ChunkToolCallDelta)
    (i : Nat) :
    ∀ (s : TranscoderState),
      (∀ s', (processToolCallDeltas p tcs s).2 = .ok s' →
        countEvents (isToolCallEventAt i) (processToolCallDeltas p tcs s).1
            + (if s.finishedAt i = true then 1 else 0)
          ≤ (if s'.finishedAt i = true then 1 else 0) ∧
        countEvents (isToolInputEndAt i) (processToolCallDeltas p tcs s).1
            + (if s.finishedAt i = true then 1 else 0)
          ≤ (if s'.finishedAt i = true then 1 else 0)) ∧
      (countEvents (isToolCallEventAt i) (processToolCallDeltas p tcs s).1
          + (if s.finishedAt i = true then 1 else 0) ≤ 1 ∧
       countEvents (isToolInputEndAt i) (processToolCallDeltas p tcs s).1
          + (if s.finishedAt i = true then 1 else 0) ≤ 1) := by
  induction tcs with
  | nil =>
      intro s
      constructor
      · intro s' h
        cases h
        simp [processToolCallDeltas, countEvents]
      · constructor <;> simp [processToolCallDeltas, countEvents] <;> split <;> simp
  | cons tc rest ih =>
      intro s
      unfold processToolCallDeltas
      cases hone : processOneToolCallDelta p tc s with
      | error e =>
          constructor
          · intro s' h; cases h
          · constructor <;> simp [countEvents] <;> split <;> simp
      | ok r =>
          obtain ⟨s₁, evs₁⟩ := r
          obtain ⟨c1, c2⟩ := processOne_count p tc s s₁ evs₁ i hone
          constructor
          · intro s' h
            simp only at h
            obtain ⟨d1, d2⟩ := (ih s₁).1 s' h
            constructor <;>
            · simp only [countEvents_append]
              omega
          · obtain ⟨d1, d2⟩ := (ih s₁).2
            have hb : (if s₁.finishedAt i = true then 1 else 0) ≤ 1 := by
              split <;> simp
            constructor <;>
            · simp only [countEvents_append]
              omega

/-- The tool-call loop never throws when every delta carries its identity
fields. -/
theorem processList_wellFormed_ok (p : String → Bool)
    (tcs : List ChunkToolCallDelta)
    (hwf : ∀ tc ∈ tcs, toolCallDeltaWellFormed tc = true) :
    ∀ s, ∃ evs s', processToolCallDeltas p tcs s = (evs, .ok s') := by
  induction tcs with
  | nil => intro s; exact ⟨[], s, rfl⟩
  | cons tc rest ih =>
      intro s
      obtain ⟨⟨s₁, evs₁⟩, hone⟩ :=
        processOne_wellFormed_ok p tc s (hwf tc (List.mem_cons_self tc rest))
      obtain ⟨evs₂, s₂, hrest⟩ :=
        ih (fun tc' h => hwf tc' (List.mem_cons_of_mem _ h)) s₁
      refine ⟨evs₁ ++ evs₂, s₂, ?_⟩
      simp only [processToolCallDeltas, hone, hrest]

/-- Tool events are not finish, error, or stream-start events. -/
theorem toolEvent_not_lifecycle (e : StreamEvent) (h : isToolEvent e = true) :
    isFinishEvent e = false ∧ isErrorEvent e = false ∧
      isStreamStartEvent e = false := by
  cases e <;> simp_all [isToolEvent, isFinishEvent, isErrorEvent, isStreamStartEvent]

/-- A list without tool events contributes no per-index tool counts. -/
theorem nonTool_counts (i : Nat) (l : List StreamEvent)
    (h : ∀ e ∈ l, isToolEvent e = false) :
    countEvents (isToolCallEventAt i) l = 0 ∧
      countEvents (isToolInputEndAt i) l = 0 := by
  constructor <;> apply countEvents_eq_zero <;> intro e he <;>
    have hh := h e he <;> cases e <;>
    simp_all [isToolEvent, isToolCallEventAt, isToolInputEndAt]

/-- `metadataStep` events are inner data events. -/
theorem metadataStep_inner (v : ChunkValue) (s : TranscoderState) :
    ∀ e ∈ (metadataStep v s).1,
      isStreamStartEvent e = false ∧ isFinishEvent e = false ∧
        isErrorEvent e = false ∧ isToolEvent e = false := by
  intro e he
  rw [(metadataStep_spec v s).2.2.2.2.2.2 e he]
  exact ⟨rfl, rfl, rfl, rfl⟩

/-- `reasoningStep` events are inner data events. -/
theorem reasoningStep_inner (delta : ChunkDelta) (s : TranscoderState) :
    ∀ e ∈ (reasoningStep delta s).1,
      isStreamStartEvent e = false ∧ isFinishEvent e = false ∧
        isErrorEvent e = false ∧ isToolEvent e = false := by
  intro e he
  rcases (reasoningStep_spec delta s).2.2.2.2 e he with ⟨id, rfl⟩ | ⟨id, d, rfl⟩ <;>
    exact ⟨rfl, rfl, rfl, rfl⟩

/-- `textStep` events are inner data events. -/
theorem textStep_inner (delta : ChunkDelta) (s : TranscoderState) :
    ∀ e ∈ (textStep delta s).1,
      isStreamStartEvent e = false ∧ isFinishEvent e = false ∧
        isErrorEvent e = false ∧ isToolEvent e = false := by
  intro e he
  rcases (textStep_spec delta s).2.2.2.2 e he with ⟨id, rfl⟩ | ⟨id, d, rfl⟩ <;>
    exact ⟨rfl, rfl, rfl, rfl⟩

/-- Tool-loop events are neither stream-start, finish, nor error. -/
theorem processList_inner (p : String → Bool) (tcs : List ChunkToolCallDelta)
    (s : TranscoderState) :
    ∀ e ∈ (processToolCallDeltas p tcs s).1,
      isStreamStartEvent e = false ∧ isFinishEvent e = false ∧
        isErrorEvent e = false := by
  intro e he
  obtain ⟨h1, h2, h3⟩ := toolEvent_not_lifecycle e ((processList_shape p tcs s).1 e he)
  exact ⟨h3, h1, h2⟩


/-- A data chunk never makes the transform emit `finish` or `error`. -/
theorem transformChunk_success_events (p : String → Bool) (w : List String)
    (v : ChunkValue) (s : TranscoderState) :
    ∀ e ∈ (transformChunk p w (.success v) s).1,
      isFinishEvent e = false ∧ isErrorEvent e = false := by
  intro e he
  rcases hch : v.choices.head? with _ | ch
  · simp only [transformChunk, hch] at he
    rcases List.mem_append.mp he with he | he
    · rw [(streamStartStep_spec w s).2.2.2.2.2.2.2.2 e he]
      exact ⟨rfl, rfl⟩
    · obtain ⟨_, h2, h3, _⟩ := metadataStep_inner v _ e he
      exact ⟨h2, h3⟩
  · rcases hd : ch.delta with _ | delta
    · simp only [transformChunk, hch, hd] at he
      rcases List.mem_append.mp he with he | he
      · rw [(streamStartStep_spec w s).2.2.2.2.2.2.2.2 e he]
        exact ⟨rfl, rfl⟩
      · obtain ⟨_, h2, h3, _⟩ := metadataStep_inner v _ e he
        exact ⟨h2, h3⟩
    · rcases htcs : delta.tool_calls with _ | tcs
      · simp only [transformChunk, hch, hd, htcs] at he
        rcases List.mem_append.mp he with he | he
        · rcases List.mem_append.mp he with he | he
          · rcases List.mem_append.mp he with he | he
            · rw [(streamStartStep_spec w s).2.2.2.2.2.2.2.2 e he]
              exact ⟨rfl, rfl⟩
            · obtain ⟨_, h2, h3, _⟩ := metadataStep_inner v _ e he
              exact ⟨h2, h3⟩
          · obtain ⟨_, h2, h3, _⟩ := reasoningStep_inner delta _ e he
            exact ⟨h2, h3⟩
        · obtain ⟨_, h2, h3, _⟩ := textStep_inner delta _ e he
          exact ⟨h2, h3⟩
      · simp only [transformChunk, hch, hd, htcs] at he
        rcases List.mem_append.mp he with he | he
        · rcases List.mem_append.mp he with he | he
          · rcases List.mem_append.mp he with he | he
            · rcases List.mem_append.mp he with he | he
              · rw [(streamStartStep_spec w s).2.2.2.2.2.2.2.2 e he]
                exact ⟨rfl, rfl⟩
              · obtain ⟨_, h2, h3, _⟩ := metadataStep_inner v _ e he
                exact ⟨h2, h3⟩
            · obtain ⟨_, h2, h3, _⟩ := reasoningStep_inner delta _ e he
              exact ⟨h2, h3⟩
          · obtain ⟨_, h2, h3, _⟩ := textStep_inner delta _ e he
            exact ⟨h2, h3⟩
        · obtain ⟨_, h2, h3⟩ := processList_inner p tcs _ e he
          exact ⟨h2, h3⟩


/-- Stream-start discipline of a data chunk: nothing once started;
first event (with no later one) when not yet started; and any surviving
state is started. -/
theorem transformChunk_success_streamStart (p : String → Bool)
    (w : List String) (v : ChunkValue) (s : TranscoderState) :
    (s.hasStreamStarted = true →
        ∀ e ∈ (transformChunk p w (.success v) s).1,
          isStreamStartEvent e = false) ∧
    (s.hasStreamStarted = false →
        (transformChunk p w (.success v) s).1.head? = some (.streamStart w) ∧
        ∀ e ∈ (transformChunk p w (.success v) s).1.tail,
          isStreamStartEvent e = false) ∧
    (∀ s', (transformChunk p w (.success v) s).2 = .ok s' →
        s'.hasStreamStarted = true) := by
  have hmeta := fun st => metadataStep_inner v st
  refine ⟨?_, ?_, ?_⟩
  · -- already started: no stream-start event at all
    intro hss e he
    have a7 := (streamStartStep_spec w s).2.2.2.2.2.2.1 hss
    rcases hch : v.choices.head? with _ | ch
    · simp only [transformChunk, hch, a7, List.nil_append] at he
      exact (hmeta _ e he).1
    · rcases hd : ch.delta with _ | delta
      · simp only [transformChunk, hch, hd, a7, List.nil_append] at he
        exact (hmeta _ e he).1
      · rcases htcs : delta.tool_calls with _ | tcs
        · simp only [transformChunk, hch, hd, htcs, a7, List.nil_append] at he
          rcases List.mem_append.mp he with he | he
          · rcases List.mem_append.mp he with he | he
            · exact (hmeta _ e he).1
            · exact (reasoningStep_inner delta _ e he).1
          · exact (textStep_inner delta _ e he).1
        · simp only [transformChunk, hch, hd, htcs, a7, List.nil_append] at he
          rcases List.mem_append.mp he with he | he
          · rcases List.mem_append.mp he with he | he
            · rcases List.mem_append.mp he with he | he
              · exact (hmeta _ e he).1
              · exact (reasoningStep_inner delta _ e he).1
            · exact (textStep_inner delta _ e he).1
          · exact (processList_inner p tcs _ e he).1
  · -- not yet started: stream-start is the first event, none later
    intro hss
    have a8 := (streamStartStep_spec w s).2.2.2.2.2.2.2.1 hss
    rcases hch : v.choices.head? with _ | ch
    · simp only [transformChunk, hch, a8, List.singleton_append, List.cons_append,
        List.head?_cons, List.tail_cons, List.nil_append]
      exact ⟨trivial, fun e he => (hmeta _ e he).1⟩
    · rcases hd : ch.delta with _ | delta
      · simp only [transformChunk, hch, hd, a8, List.singleton_append,
          List.cons_append, List.head?_cons, List.tail_cons, List.nil_append]
        exact ⟨trivial, fun e he => (hmeta _ e he).1⟩
      · rcases htcs : delta.tool_calls with _ | tcs
        · simp only [transformChunk, hch, hd, htcs, a8, List.singleton_append,
            List.cons_append, List.head?_cons, List.tail_cons, List.nil_append]
          refine ⟨trivial, fun e he => ?_⟩
          rcases List.mem_append.mp he with he | he
          · rcases List.mem_append.mp he with he | he
            · exact (hmeta _ e he).1
            · exact (reasoningStep_inner delta _ e he).1
          · exact (textStep_inner delta _ e he).1
        · simp only [transformChunk, hch, hd, htcs, a8, List.singleton_append,
            List.cons_append, List.head?_cons, List.tail_cons, List.nil_append]
          refine ⟨trivial, fun e he => ?_⟩
          rcases List.mem_append.mp he with he | he
          · rcases List.mem_append.mp he with he | he
            · rcases List.mem_append.mp he with he | he
              · exact (hmeta _ e he).1
              · exact (reasoningStep_inner delta _ e he).1
            · exact (textStep_inner delta _ e he).1
          · exact (processList_inner p tcs _ e he).1
  · -- any surviving state is started
    intro s' h
    rcases hch : v.choices.head? with _ | ch
    · simp only [transformChunk, hch] at h
      obtain rfl := (Except.ok.inj h).symm
      rw [(finishReasonStep_spec _ _).2.2.2.2.1, (usageStep_spec _ _).2.2.2.2.1,
        (metadataStep_spec _ _).2.2.2.2.2.1, (streamStartStep_spec w s).2.2.2.2.2.1]
    · rcases hd : ch.delta with _ | delta
      · simp only [transformChunk, hch, hd] at h
        obtain rfl := (Except.ok.inj h).symm
        rw [(finishReasonStep_spec _ _).2.2.2.2.1, (usageStep_spec _ _).2.2.2.2.1,
          (metadataStep_spec _ _).2.2.2.2.2.1, (streamStartStep_spec w s).2.2.2.2.2.1]
      · rcases htcs : delta.tool_calls with _ | tcs
        · simp only [transformChunk, hch, hd, htcs] at h
          obtain rfl := (Except.ok.inj h).symm
          rw [(textStep_spec _ _).2.2.2.1, (reasoningStep_spec _ _).2.2.2.1,
            (finishReasonStep_spec _ _).2.2.2.2.1, (usageStep_spec _ _).2.2.2.2.1,
            (metadataStep_spec _ _).2.2.2.2.2.1, (streamStartStep_spec w s).2.2.2.2.2.1]
        · simp only [transformChunk, hch, hd, htcs] at h
          rw [(processList_shape p tcs _).2 s' h |>.2.2.1,
            (textStep_spec _ _).2.2.2.1, (reasoningStep_spec _ _).2.2.2.1,
            (finishReasonStep_spec _ _).2.2.2.2.1, (usageStep_spec _ _).2.2.2.2.1,
            (metadataStep_spec _ _).2.2.2.2.2.1, (streamStartStep_spec w s).2.2.2.2.2.1]


/-- Dropping a tool-event-free prefix preserves per-index tool counts. -/
theorem countEvents_nonTool_front (i : Nat) (A B : List StreamEvent)
    (hA : ∀ e ∈ A, isToolEvent e = false) :
    countEvents (isToolCallEventAt i) (A ++ B)
        = countEvents (isToolCallEventAt i) B ∧
    countEvents (isToolInputEndAt i) (A ++ B)
        = countEvents (isToolInputEndAt i) B := by
  rw [countEvents_append, countEvents_append,
    (nonTool_counts i A hA).1, (nonTool_counts i A hA).2]
  omega

/-- Per-index tool-event counts of a data chunk, tracked by the finished
flag of the accumulator. -/
theorem transformChunk_success_counts (p : String → Bool) (w : List String)
    (v : ChunkValue) (s : TranscoderState) (i : Nat) :
    (∀ s', (transformChunk p w (.success v) s).2 = .ok s' →
        countEvents (isToolCallEventAt i) (transformChunk p w (.success v) s).1
            + (if s.finishedAt i = true then 1 else 0)
          ≤ (if s'.finishedAt i = true then 1 else 0) ∧
        countEvents (isToolInputEndAt i) (transformChunk p w (.success v) s).1
            + (if s.finishedAt i = true then 1 else 0)
          ≤ (if s'.finishedAt i = true then 1 else 0)) ∧
    (countEvents (isToolCallEventAt i) (transformChunk p w (.success v) s).1
        + (if s.finishedAt i = true then 1 else 0) ≤ 1 ∧
     countEvents (isToolInputEndAt i) (transformChunk p w (.success v) s).1
        + (if s.finishedAt i = true then 1 else 0) ≤ 1) := by
  have hE0 : ∀ e ∈ (streamStartStep w s).1, isToolEvent e = false := by
    intro e he
    rw [(streamStartStep_spec w s).2.2.2.2.2.2.2.2 e he]; rfl
  have hE1 : ∀ e ∈ (metadataStep v (streamStartStep w s).2).1,
      isToolEvent e = false :=
    fun e he => (metadataStep_inner v _ e he).2.2.2
  have hfin1 : (if s.finishedAt i = true then 1 else 0) ≤ 1 := by
    split <;> omega
  rcases hch : v.choices.head? with _ | ch
  · have htc3 := ((finishReasonStep_spec (none : Option ChunkChoice)
        (usageStep v (metadataStep v (streamStartStep w s).2).2)).1.trans
      ((usageStep_spec v (metadataStep v (streamStartStep w s).2).2).1.trans
        ((metadataStep_spec v (streamStartStep w s).2).1.trans
          (streamStartStep_spec w s).1)))
    have hA : ∀ e ∈ (streamStartStep w s).1
        ++ (metadataStep v (streamStartStep w s).2).1, isToolEvent e = false := by
      intro e he
      rcases List.mem_append.mp he with he | he
      · exact hE0 e he
      · exact hE1 e he
    simp only [transformChunk, hch]
    rw [(nonTool_counts i _ hA).1, (nonTool_counts i _ hA).2]
    refine ⟨?_, by omega, by omega⟩
    intro s' h
    obtain rfl := (Except.ok.inj h).symm
    rw [finishedAt_congr htc3 i]
    omega
  · rcases hd : ch.delta with _ | delta
    · have htc3 := ((finishReasonStep_spec (some ch)
          (usageStep v (metadataStep v (streamStartStep w s).2).2)).1.trans
        ((usageStep_spec v (metadataStep v (streamStartStep w s).2).2).1.trans
          ((metadataStep_spec v (streamStartStep w s).2).1.trans
            (streamStartStep_spec w s).1)))
      have hA : ∀ e ∈ (streamStartStep w s).1
          ++ (metadataStep v (streamStartStep w s).2).1, isToolEvent e = false := by
        intro e he
        rcases List.mem_append.mp he with he | he
        · exact hE0 e he
        · exact hE1 e he
      simp only [transformChunk, hch, hd]
      rw [(nonTool_counts i _ hA).1, (nonTool_counts i _ hA).2]
      refine ⟨?_, by omega, by omega⟩
      intro s' h
      obtain rfl := (Except.ok.inj h).symm
      rw [finishedAt_congr htc3 i]
      omega
    · have htc3 := ((finishReasonStep_spec (some ch)
          (usageStep v (metadataStep v (streamStartStep w s).2).2)).1.trans
        ((usageStep_spec v (metadataStep v (streamStartStep w s).2).2).1.trans
          ((metadataStep_spec v (streamStartStep w s).2).1.trans
            (streamStartStep_spec w s).1)))
      have htcr3 := ((textStep_spec delta (reasoningStep delta
            (finishReasonStep (some ch)
              (usageStep v (metadataStep v (streamStartStep w s).2).2))).2).1.trans
        ((reasoningStep_spec delta (finishReasonStep (some ch)
            (usageStep v (metadataStep v (streamStartStep w s).2).2))).1.trans htc3))
      have hA : ∀ e ∈ ((streamStartStep w s).1
          ++ (metadataStep v (streamStartStep w s).2).1
          ++ (reasoningStep delta (finishReasonStep (some ch)
              (usageStep v (metadataStep v (streamStartStep w s).2).2))).1
          ++ (textStep delta (reasoningStep delta (finishReasonStep (some ch)
              (usageStep v (metadataStep v (streamStartStep w s).2).2))).2).1),
          isToolEvent e = false := by
        intro e he
        rcases List.mem_append.mp he with he | he
        · rcases List.mem_append.mp he with he | he
          · rcases List.mem_append.mp he with he | he
            · exact hE0 e he
            · exact hE1 e he
          · exact (reasoningStep_inner delta _ e he).2.2.2
        · exact (textStep_inner delta _ e he).2.2.2
      rcases htcs : delta.tool_calls with _ | tcs
      · simp only [transformChunk, hch, hd, htcs]
        rw [(nonTool_counts i _ hA).1, (nonTool_counts i _ hA).2]
        refine ⟨?_, by omega, by omega⟩
        intro s' h
        obtain rfl := (Except.ok.inj h).symm
        rw [finishedAt_congr htcr3 i]
        omega
      · simp only [transformChunk, hch, hd, htcs]
        rw [(countEvents_nonTool_front i _ _ hA).1,
          (countEvents_nonTool_front i _ _ hA).2]
        have hfr3 := finishedAt_congr htcr3 i
        obtain ⟨pco, pcb⟩ := processList_count p tcs i
          (textStep delta (reasoningStep delta (finishReasonStep (some ch)
            (usageStep v (metadataStep v (streamStartStep w s).2).2))).2).2
        rw [hfr3] at pco pcb
        exact ⟨fun s' h => pco s' h, pcb⟩


/-- A data chunk updates the tracked finish reason and usage to the
latest reported values, and a well-formed chunk never throws. -/
theorem transformChunk_success_state (p : String → Bool) (w : List String)
    (v : ChunkValue) (s : TranscoderState) :
    (∀ s', (transformChunk p w (.success v) s).2 = .ok s' →
        s'.finishReason =
          (match (chunkFinishReasons (.success v)).getLast? with
           | some fr => mapQwenFinishReason (some fr)
           | none => s.finishReason) ∧
        s'.usage =
          (match (chunkUsages (.success v)).getLast? with
           | some pc => buildUsage pc.1 pc.2
           | none => s.usage)) ∧
    (chunkWellFormed (.success v) = true →
        ∃ s', (transformChunk p w (.success v) s).2 = .ok s') := by
  rcases hch : v.choices.head? with _ | ch
  · refine ⟨?_, ?_⟩
    · intro s' h
      simp only [transformChunk, hch] at h
      obtain rfl := (Except.ok.inj h).symm
      constructor
      · rw [(finishReasonStep_spec _ _).2.2.2.2.2, (usageStep_spec _ _).2.1,
          (metadataStep_spec _ _).2.1, (streamStartStep_spec w s).2.1]
        simp [chunkFinishReasons, hch]
      · rw [(finishReasonStep_spec _ _).2.1, (usageStep_spec _ _).2.2.2.2.2,
          (metadataStep_spec _ _).2.2.1, (streamStartStep_spec w s).2.2.1]
        rcases hu : v.usage with _ | u <;> simp [chunkUsages, hch, hu]
    · intro _
      simp only [transformChunk, hch]
      exact ⟨_, rfl⟩
  · rcases hd : ch.delta with _ | delta
    · refine ⟨?_, ?_⟩
      · intro s' h
        simp only [transformChunk, hch, hd] at h
        obtain rfl := (Except.ok.inj h).symm
        constructor
        · rw [(finishReasonStep_spec _ _).2.2.2.2.2, (usageStep_spec _ _).2.1,
            (metadataStep_spec _ _).2.1, (streamStartStep_spec w s).2.1]
          rcases hfr : ch.finish_reason with _ | fr <;>
            simp [chunkFinishReasons, hch, hfr]
        · rw [(finishReasonStep_spec _ _).2.1, (usageStep_spec _ _).2.2.2.2.2,
            (metadataStep_spec _ _).2.2.1, (streamStartStep_spec w s).2.2.1]
          rcases hu : v.usage with _ | u <;> simp [chunkUsages, hch, hu]
      · intro _
        simp only [transformChunk, hch, hd]
        exact ⟨_, rfl⟩
    · rcases htcs : delta.tool_calls with _ | tcs
      · refine ⟨?_, ?_⟩
        · intro s' h
          simp only [transformChunk, hch, hd, htcs] at h
          obtain rfl := (Except.ok.inj h).symm
          constructor
          · rw [(textStep_spec _ _).2.1, (reasoningStep_spec _ _).2.1,
              (finishReasonStep_spec _ _).2.2.2.2.2, (usageStep_spec _ _).2.1,
              (metadataStep_spec _ _).2.1, (streamStartStep_spec w s).2.1]
            rcases hfr : ch.finish_reason with _ | fr <;>
              simp [chunkFinishReasons, hch, hfr]
          · rw [(textStep_spec _ _).2.2.1, (reasoningStep_spec _ _).2.2.1,
              (finishReasonStep_spec _ _).2.1, (usageStep_spec _ _).2.2.2.2.2,
              (metadataStep_spec _ _).2.2.1, (streamStartStep_spec w s).2.2.1]
            rcases hu : v.usage with _ | u <;> simp [chunkUsages, hch, hu]
        · intro _
          simp only [transformChunk, hch, hd, htcs]
          exact ⟨_, rfl⟩
      · refine ⟨?_, ?_⟩
        · intro s' h
          simp only [transformChunk, hch, hd, htcs] at h
          obtain ⟨g1, g2, _, _, _⟩ := (processList_shape p tcs _).2 s' h
          constructor
          · rw [g1, (textStep_spec _ _).2.1, (reasoningStep_spec _ _).2.1,
              (finishReasonStep_spec _ _).2.2.2.2.2, (usageStep_spec _ _).2.1,
              (metadataStep_spec _ _).2.1, (streamStartStep_spec w s).2.1]
            rcases hfr : ch.finish_reason with _ | fr <;>
              simp [chunkFinishReasons, hch, hfr]
          · rw [g2, (textStep_spec _ _).2.2.1, (reasoningStep_spec _ _).2.2.1,
              (finishReasonStep_spec _ _).2.1, (usageStep_spec _ _).2.2.2.2.2,
              (metadataStep_spec _ _).2.2.1, (streamStartStep_spec w s).2.2.1]
            rcases hu : v.usage with _ | u <;> simp [chunkUsages, hch, hu]
        · intro hwf
          simp only [chunkWellFormed, hch, hd, htcs, Option.getD_some] at hwf
          simp only [transformChunk, hch, hd, htcs]
          obtain ⟨evs4, s4, heq⟩ :=
            processList_wellFormed_ok p tcs (List.all_eq_true.mp hwf) _
          exact ⟨s4, by rw [heq]⟩

/-- A parse-failure chunk: one inline error event, state unchanged, no
throw — processing continues. -/
theorem transformChunk_failure (p : String → Bool) (w : List String)
    (e : String) (s : TranscoderState) :
    transformChunk p w (.failure e) s = ([.error e], .ok s) := rfl

/-- A vendor error-object chunk: one inline error event, state
unchanged, no throw. -/
theorem transformChunk_errorValue (p : String → Bool) (w : List String)
    (m : String) (s : TranscoderState) :
    transformChunk p w (.errorValue m) s = ([.error m], .ok s) := rfl

/-- The flush emits exactly one `finish` event, as the final event,
carrying the tracked finish reason and usage; it emits no stream-start
and no tool events. -/
theorem flushTranscoder_spec (s : TranscoderState) :
    countEvents isFinishEvent (flushTranscoder s) = 1 ∧
    (flushTranscoder s).getLast? = some (.finish s.finishReason s.usage) ∧
    ∀ e ∈ flushTranscoder s,
      isStreamStartEvent e = false ∧ isToolEvent e = false := by
  unfold flushTranscoder
  rcases s.textId with _ | tid <;> rcases s.reasoningId with _ | rid <;>
  · refine ⟨by simp [countEvents, isFinishEvent], by simp, ?_⟩
    intro e he
    simp only [List.mem_append, List.mem_singleton, List.not_mem_nil, false_or,
      or_false, List.nil_append] at he
    rcases he with (rfl | rfl) | rfl <;> exact ⟨rfl, rfl⟩

/-- From a started state the run emits no further `stream-start` and
every surviving state remains started. -/
theorem runAux_started (p : String → Bool) (w : List String)
    (chunks : List StreamChunk) :
    ∀ s, s.hasStreamStarted = true →
      (∀ e ∈ (runTranscoderAux p w chunks s).1,
        isStreamStartEvent e = false) ∧
      (∀ s', (runTranscoderAux p w chunks s).2 = .ok s' →
        s'.hasStreamStarted = true) := by
  induction chunks with
  | nil =>
      intro s hss
      refine ⟨?_, ?_⟩
      · intro e he; cases he
      · intro s' h; cases h; exact hss
  | cons c cs ih =>
      intro s hss
      cases c with
      | failure msg =>
          simp only [runTranscoderAux, transformChunk_failure]
          refine ⟨?_, (ih s hss).2⟩
          intro e he
          rcases List.mem_append.mp he with he | he
          · rcases List.mem_singleton.mp he with rfl; rfl
          · exact (ih s hss).1 e he
      | errorValue msg =>
          simp only [runTranscoderAux, transformChunk_errorValue]
          refine ⟨?_, (ih s hss).2⟩
          intro e he
          rcases List.mem_append.mp he with he | he
          · rcases List.mem_singleton.mp he with rfl; rfl
          · exact (ih s hss).1 e he
      | success v =>
          obtain ⟨t1, _, t3⟩ := transformChunk_success_streamStart p w v s
          rcases hX : transformChunk p w (.success v) s with ⟨evs, r⟩
          rw [hX] at t1 t3
          simp only at t1 t3
          rcases r with e | s₁
          · simp only [runTranscoderAux, hX]
            exact ⟨fun e he => t1 hss e he, fun s' h => by cases h⟩
          · have hs₁ : s₁.hasStreamStarted = true := t3 s₁ rfl
            simp only [runTranscoderAux, hX]
            refine ⟨?_, (ih s₁ hs₁).2⟩
            intro e he
            rcases List.mem_append.mp he with he | he
            · exact t1 hss e he
            · exact (ih s₁ hs₁).1 e he

/-- A run over failure/error chunks only emits only error events and
leaves the state unchanged. -/
theorem runAux_all_failures (p : String → Bool) (w : List String)
    (chunks : List StreamChunk)
    (h : ∀ c ∈ chunks, ∀ v, c ≠ StreamChunk.success v) :
    ∀ s, (∀ e ∈ (runTranscoderAux p w chunks s).1, isErrorEvent e = true) ∧
      (runTranscoderAux p w chunks s).2 = .ok s := by
  induction chunks with
  | nil =>
      intro s
      refine ⟨?_, rfl⟩
      intro e he; cases he
  | cons c cs ih =>
      intro s
      have hcs := fun c' hc' => h c' (List.mem_cons_of_mem c hc')
      cases c with
      | failure msg =>
          simp only [runTranscoderAux, transformChunk_failure]
          refine ⟨?_, (ih hcs s).2⟩
          intro e he
          rcases List.mem_append.mp he with he | he
          · rcases List.mem_singleton.mp he with rfl; rfl
          · exact (ih hcs s).1 e he
      | errorValue msg =>
          simp only [runTranscoderAux, transformChunk_errorValue]
          refine ⟨?_, (ih hcs s).2⟩
          intro e he
          rcases List.mem_append.mp he with he | he
          · rcases List.mem_singleton.mp he with rfl; rfl
          · exact (ih hcs s).1 e he
      | success v =>
          exact absurd rfl (h (.success v) (List.mem_cons_self _ _) v)


/-- Run-level per-index tool-event counts, tracked by the finished
flag. -/
theorem runAux_counts (p : String → Bool) (w : List String)
    (chunks : List StreamChunk) (i : Nat) :
    ∀ s,
      (∀ s', (runTranscoderAux p w chunks s).2 = .ok s' →
        countEvents (isToolCallEventAt i) (runTranscoderAux p w chunks s).1
            + (if s.finishedAt i = true then 1 else 0)
          ≤ (if s'.finishedAt i = true then 1 else 0) ∧
        countEvents (isToolInputEndAt i) (runTranscoderAux p w chunks s).1
            + (if s.finishedAt i = true then 1 else 0)
          ≤ (if s'.finishedAt i = true then 1 else 0)) ∧
      (countEvents (isToolCallEventAt i) (runTranscoderAux p w chunks s).1
          + (if s.finishedAt i = true then 1 else 0) ≤ 1 ∧
       countEvents (isToolInputEndAt i) (runTranscoderAux p w chunks s).1
          + (if s.finishedAt i = true then 1 else 0) ≤ 1) := by
  induction chunks with
  | nil =>
      intro s
      refine ⟨?_, ?_, ?_⟩
      · intro s' h
        cases h
        simp [runTranscoderAux, countEvents]
      · simp only [runTranscoderAux, countEvents, List.filter_nil,
          List.length_nil, Nat.zero_add]
        split <;> omega
      · simp only [runTranscoderAux, countEvents, List.filter_nil,
          List.length_nil, Nat.zero_add]
        split <;> omega
  | cons c cs ih =>
      intro s
      obtain ⟨ok1, b1, b2⟩ := ih s
      cases c with
      | failure msg =>
          simp only [runTranscoderAux, transformChunk_failure, countEvents_append]
          have hz1 : countEvents (isToolCallEventAt i) [.error msg] = 0 := rfl
          have hz2 : countEvents (isToolInputEndAt i) [.error msg] = 0 := rfl
          refine ⟨?_, by omega, by omega⟩
          intro s' h
          obtain ⟨o1, o2⟩ := ok1 s' h
          exact ⟨by omega, by omega⟩
      | errorValue msg =>
          simp only [runTranscoderAux, transformChunk_errorValue, countEvents_append]
          have hz1 : countEvents (isToolCallEventAt i) [.error msg] = 0 := rfl
          have hz2 : countEvents (isToolInputEndAt i) [.error msg] = 0 := rfl
          refine ⟨?_, by omega, by omega⟩
          intro s' h
          obtain ⟨o1, o2⟩ := ok1 s' h
          exact ⟨by omega, by omega⟩
      | success v =>
          obtain ⟨tco, tcb⟩ := transformChunk_success_counts p w v s i
          rcases hX : transformChunk p w (.success v) s with ⟨evs, r⟩
          rw [hX] at tco tcb
          simp only at tco tcb
          rcases r with e | s₁
          · simp only [runTranscoderAux, hX]
            refine ⟨?_, tcb⟩
            intro s' h
            cases h
          · obtain ⟨t1, t2⟩ := tco s₁ rfl
            obtain ⟨oks, c1, c2⟩ := ih s₁
            simp only [runTranscoderAux, hX, countEvents_append]
            refine ⟨?_, by omega, by omega⟩
            intro s' h
            obtain ⟨o1, o2⟩ := oks s' h
            exact ⟨by omega, by omega⟩

/-- From a not-started state, the run's events are either all errors
(no data chunk reached), or an error prefix followed by the single
`stream-start` and a start-free remainder. -/
theorem runAux_streamStart_structure (p : String → Bool) (w : List String)
    (chunks : List StreamChunk) :
    ∀ s, s.hasStreamStarted = false →
      ((∀ e ∈ (runTranscoderAux p w chunks s).1, isErrorEvent e = true) ∧
        (runTranscoderAux p w chunks s).2 = .ok s)
      ∨ (∃ errs rest, (runTranscoderAux p w chunks s).1
            = errs ++ .streamStart w :: rest ∧
          (∀ e ∈ errs, isErrorEvent e = true) ∧
          countEvents isStreamStartEvent rest = 0) := by
  induction chunks with
  | nil =>
      intro s hss
      left
      refine ⟨?_, rfl⟩
      intro e he; cases he
  | cons c cs ih =>
      intro s hss
      cases c with
      | failure msg =>
          simp only [runTranscoderAux, transformChunk_failure]
          rcases ih s hss with ⟨h1, h2⟩ | ⟨errs, rest, h1, h2, h3⟩
          · left
            refine ⟨?_, h2⟩
            intro e he
            rcases List.mem_append.mp he with he | he
            · rcases List.mem_singleton.mp he with rfl; rfl
            · exact h1 e he
          · right
            refine ⟨.error msg :: errs, rest, ?_, ?_, h3⟩
            · rw [h1]
              rfl
            · intro e he
              rcases List.mem_cons.mp he with rfl | he
              · rfl
              · exact h2 e he
      | errorValue msg =>
          simp only [runTranscoderAux, transformChunk_errorValue]
          rcases ih s hss with ⟨h1, h2⟩ | ⟨errs, rest, h1, h2, h3⟩
          · left
            refine ⟨?_, h2⟩
            intro e he
            rcases List.mem_append.mp he with he | he
            · rcases List.mem_singleton.mp he with rfl; rfl
            · exact h1 e he
          · right
            refine ⟨.error msg :: errs, rest, ?_, ?_, h3⟩
            · rw [h1]
              rfl
            · intro e he
              rcases List.mem_cons.mp he with rfl | he
              · rfl
              · exact h2 e he
      | success v =>
          obtain ⟨_, t2, t3⟩ := transformChunk_success_streamStart p w v s
          rcases hX : transformChunk p w (.success v) s with ⟨evs, r⟩
          rw [hX] at t2 t3
          simp only at t2 t3
          obtain ⟨h2a, h2b⟩ := t2 hss
          have hevs : StreamEvent.streamStart w :: evs.tail = evs :=
            List.cons_head?_tail h2a
          rcases r with e | s₁
          · right
            simp only [runTranscoderAux, hX]
            refine ⟨[], evs.tail, ?_, ?_, ?_⟩
            · rw [List.nil_append, hevs]
            · intro e he; cases he
            · exact countEvents_eq_zero _ _ h2b
          · right
            simp only [runTranscoderAux, hX]
            obtain ⟨r1, _⟩ := runAux_started p w cs s₁ (t3 s₁ rfl)
            refine ⟨[], evs.tail ++ (runTranscoderAux p w cs s₁).1, ?_, ?_, ?_⟩
            · rw [List.nil_append, ← List.cons_append, hevs]
            · intro e he; cases he
            · rw [countEvents_append, countEvents_eq_zero _ _ h2b,
                countEvents_eq_zero _ _ r1]

/-- A run over well-formed chunks completes, emits no `finish` event,
and tracks the latest reported finish reason and usage. -/
theorem runAux_state (p : String → Bool) (w : List String)
    (chunks : List StreamChunk) :
    (∀ c ∈ chunks, chunkWellFormed c = true) →
    ∀ s, ∃ s_f, (runTranscoderAux p w chunks s).2 = .ok s_f ∧
      (∀ e ∈ (runTranscoderAux p w chunks s).1, isFinishEvent e = false) ∧
      s_f.finishReason =
        (match ((chunks.map chunkFinishReasons).flatten).getLast? with
         | some fr => mapQwenFinishReason (some fr)
         | none => s.finishReason) ∧
      s_f.usage =
        (match ((chunks.map chunkUsages).flatten).getLast? with
         | some pc => buildUsage pc.1 pc.2
         | none => s.usage) := by
  induction chunks with
  | nil =>
      intro _ s
      refine ⟨s, rfl, ?_, rfl, rfl⟩
      intro e he; cases he
  | cons c cs ih =>
      intro hwf s
      have hc := hwf c (List.mem_cons_self c cs)
      have hcs := fun c' h => hwf c' (List.mem_cons_of_mem c h)
      cases c with
      | failure msg =>
          obtain ⟨s_f, g1, g2, g3, g4⟩ := ih hcs s
          simp only [runTranscoderAux, transformChunk_failure]
          refine ⟨s_f, g1, ?_, ?_, ?_⟩
          · intro e he
            rcases List.mem_append.mp he with he | he
            · rcases List.mem_singleton.mp he with rfl; rfl
            · exact g2 e he
          · simpa [chunkFinishReasons] using g3
          · simpa [chunkUsages] using g4
      | errorValue msg =>
          obtain ⟨s_f, g1, g2, g3, g4⟩ := ih hcs s
          simp only [runTranscoderAux, transformChunk_errorValue]
          refine ⟨s_f, g1, ?_, ?_, ?_⟩
          · intro e he
            rcases List.mem_append.mp he with he | he
            · rcases List.mem_singleton.mp he with rfl; rfl
            · exact g2 e he
          · simpa [chunkFinishReasons] using g3
          · simpa [chunkUsages] using g4
      | success v =>
          obtain ⟨tst, twf⟩ := transformChunk_success_state p w v s
          obtain ⟨s₁, h₁⟩ := twf hc
          obtain ⟨f1, f2⟩ := tst s₁ h₁
          have tev := transformChunk_success_events p w v s
          rcases hX : transformChunk p w (.success v) s with ⟨evs, r⟩
          rw [hX] at h₁ tev
          simp only at h₁ tev
          subst h₁
          obtain ⟨s_f, g1, g2, g3, g4⟩ := ih hcs s₁
          simp only [runTranscoderAux, hX]
          refine ⟨s_f, g1, ?_, ?_, ?_⟩
          · intro e he
            rcases List.mem_append.mp he with he | he
            · exact (tev e he).1
            · exact g2 e he
          · simp only [List.map_cons, List.flatten_cons, List.getLast?_append]
            rcases hb : ((cs.map chunkFinishReasons).flatten).getLast? with _ | x
            · have h5 : s_f.finishReason = s₁.finishReason := by
                rw [g3, hb]
              rw [h5, f1]
              simp [Option.or]
            · have h5 : s_f.finishReason = mapQwenFinishReason (some x) := by
                rw [g3, hb]
              rw [h5]
              simp [Option.or]
          · simp only [List.map_cons, List.flatten_cons, List.getLast?_append]
            rcases hb : ((cs.map chunkUsages).flatten).getLast? with _ | x
            · have h5 : s_f.usage = s₁.usage := by
                rw [g4, hb]
              rw [h5, f2]
              simp [Option.or]
            · have h5 : s_f.usage = buildUsage x.1 x.2 := by
                rw [g4, hb]
              rw [h5]
              simp [Option.or]

/-- C3: for every tool-call index, the transcoded stream carries at most one
tool-call lifecycle event and at most one tool-input-end event; once the
accumulator at an index has finished (its first fragment held parsable
arguments), any later delta for that index leaves the state unchanged and
emits no events. -/
theorem tool_call_dedup (p : String → Bool) (w : List String)
    (chunks : List StreamChunk) (i : Nat) :
    countEvents (isToolCallEventAt i) (runTranscoder p w chunks).1 ≤ 1 ∧
    countEvents (isToolInputEndAt i) (runTranscoder p w chunks).1 ≤ 1 ∧
    (∀ tc s, tc.index = i → s.finishedAt i = true →
        processOneToolCallDelta p tc s = .ok (s, [])) := by
  have hcounts := runAux_counts p w chunks i initialTranscoderState
  have hfin0 : initialTranscoderState.finishedAt i = false := rfl
  rcases hR : runTranscoderAux p w chunks initialTranscoderState with ⟨evs, r⟩
  rw [hR] at hcounts
  simp only at hcounts
  obtain ⟨okc, bc1, bc2⟩ := hcounts
  rw [hfin0] at bc1 bc2
  simp only [if_neg (by simp : ¬(false = true))] at bc1 bc2
  refine ⟨?_, ?_, ?_⟩
  · rcases r with e | s_f
    · simp only [runTranscoder, hR]
      omega
    · simp only [runTranscoder, hR, countEvents_append]
      have hfl := (nonTool_counts i (flushTranscoder s_f)
        (fun e he => (flushTranscoder_spec s_f).2.2 e he |>.2)).1
      obtain ⟨o1, _⟩ := okc s_f rfl
      rw [hfin0] at o1
      simp only [if_neg (by simp : ¬(false = true))] at o1
      have : (if s_f.finishedAt i = true then 1 else 0) ≤ 1 := by split <;> omega
      omega
  · rcases r with e | s_f
    · simp only [runTranscoder, hR]
      omega
    · simp only [runTranscoder, hR, countEvents_append]
      have hfl := (nonTool_counts i (flushTranscoder s_f)
        (fun e he => (flushTranscoder_spec s_f).2.2 e he |>.2)).2
      obtain ⟨_, o2⟩ := okc s_f rfl
      rw [hfin0] at o2
      simp only [if_neg (by simp : ¬(false = true))] at o2
      have : (if s_f.finishedAt i = true then 1 else 0) ≤ 1 := by split <;> omega
      omega
  · intro tc s hidx hfin
    subst hidx
    unfold processOneToolCallDelta
    rcases hsc : s.toolCalls tc.index with _ | acc
    · exact absurd hfin (by simp [TranscoderState.finishedAt, hsc])
    · unfold TranscoderState.finishedAt at hfin
      rw [hsc] at hfin
      have hfin2 : acc.hasFinished = true := hfin
      simp [hfin2]

/-- Witness for C3 at a concrete two-chunk stream repeating index 0. -/
theorem tool_call_dedup_witness :
    countEvents (isToolCallEventAt 0)
        (runTranscoder emptyObjectOnly []
          [chunkOfToolDelta tcDeltaFirstW, chunkOfToolDelta tcDeltaTrailingW]).1
      ≤ 1 ∧
    processOneToolCallDelta emptyObjectOnly tcDeltaTrailingW
        (initialTranscoderState.setToolCall 0
          { id := "c", name := "f", arguments := "\x7b\x7d", hasFinished := true })
      = .ok (initialTranscoderState.setToolCall 0
          { id := "c", name := "f", arguments := "\x7b\x7d", hasFinished := true },
        []) :=
  ⟨(tool_call_dedup emptyObjectOnly []
      [chunkOfToolDelta tcDeltaFirstW, chunkOfToolDelta tcDeltaTrailingW] 0).1,
    (tool_call_dedup emptyObjectOnly [] [] 0).2.2 tcDeltaTrailingW
      (initialTranscoderState.setToolCall 0
        { id := "c", name := "f", arguments := "\x7b\x7d", hasFinished := true })
      rfl rfl⟩


/-- C4 counterexample: a parse failure ahead of the first successful chunk
makes the transform enqueue an `error` event before `stream-start`, so
`stream-start` is not literally the first event of the output stream. -/
theorem error_event_precedes_stream_start :
    (runTranscoder (fun _ => false) []
        [.failure "bad", .success emptyChunkValue]).1
      = [.error "bad", .streamStart [],
         .responseMetadata none none none,
         .finish { unified := "other", raw := none } (buildUsage none none)] := rfl

/-- An error event is never a stream-start event. -/
theorem errorEvent_not_streamStart (e : StreamEvent)
    (h : isErrorEvent e = true) : isStreamStartEvent e = false := by
  cases e <;> simp_all [isErrorEvent, isStreamStartEvent]

/-- C4 amended: `stream-start` is emitted at most once, and only upon the
first successful chunk: every event before it is an `error` event (from
chunks that failed to parse or carried a vendor error object), no
`stream-start` follows it, a stream with no successful chunk emits none,
and when the very first chunk is successful, `stream-start` with the
configured warnings is literally the first event. -/
theorem stream_start_once_after_errors (p : String → Bool) (w : List String)
    (chunks : List StreamChunk) :
    countEvents isStreamStartEvent (runTranscoder p w chunks).1 ≤ 1 ∧
    (countEvents isStreamStartEvent (runTranscoder p w chunks).1 = 0 ∨
      ∃ errs rest, (runTranscoder p w chunks).1
          = errs ++ .streamStart w :: rest ∧
        (∀ e ∈ errs, isErrorEvent e = true) ∧
        countEvents isStreamStartEvent rest = 0) ∧
    ((∀ c ∈ chunks, ∀ v, c ≠ StreamChunk.success v) →
        countEvents isStreamStartEvent (runTranscoder p w chunks).1 = 0) ∧
    (∀ v cs, chunks = .success v :: cs →
        (runTranscoder p w chunks).1.head? = some (.streamStart w)) := by
  have hstruct := runAux_streamStart_structure p w chunks initialTranscoderState rfl
  have hmain : countEvents isStreamStartEvent (runTranscoder p w chunks).1 = 0 ∨
      ∃ errs rest, (runTranscoder p w chunks).1
          = errs ++ .streamStart w :: rest ∧
        (∀ e ∈ errs, isErrorEvent e = true) ∧
        countEvents isStreamStartEvent rest = 0 := by
    rcases hR : runTranscoderAux p w chunks initialTranscoderState with ⟨evs, r⟩
    rw [hR] at hstruct
    simp only at hstruct
    rcases hstruct with ⟨h1, h2⟩ | ⟨errs, rest, heq, herrs, hrest⟩
    · subst h2
      left
      simp only [runTranscoder, hR, countEvents_append]
      rw [countEvents_eq_zero _ _ (fun e he => errorEvent_not_streamStart e (h1 e he)),
        countEvents_eq_zero _ _
          (fun e he => ((flushTranscoder_spec initialTranscoderState).2.2 e he).1)]
    · right
      rcases r with e | s_f
      · exact ⟨errs, rest, by simp only [runTranscoder, hR]; exact heq, herrs, hrest⟩
      · refine ⟨errs, rest ++ flushTranscoder s_f, ?_, herrs, ?_⟩
        · simp only [runTranscoder, hR]
          rw [heq]
          simp [List.append_assoc]
        · rw [countEvents_append, hrest,
            countEvents_eq_zero _ _
              (fun e he => ((flushTranscoder_spec s_f).2.2 e he).1)]
  refine ⟨?_, hmain, ?_, ?_⟩
  · rcases hmain with h | ⟨errs, rest, heq, herrs, hrest⟩
    · omega
    · rw [heq, countEvents_append, countEvents_cons,
        countEvents_eq_zero _ _ (fun e he => errorEvent_not_streamStart e (herrs e he)),
        hrest]
      simp [isStreamStartEvent]
  · intro hnos
    obtain ⟨h1, h2⟩ := runAux_all_failures p w chunks hnos initialTranscoderState
    rcases hR : runTranscoderAux p w chunks initialTranscoderState with ⟨evs, r⟩
    rw [hR] at h1 h2
    simp only at h1 h2
    subst h2
    simp only [runTranscoder, hR, countEvents_append]
    rw [countEvents_eq_zero _ _ (fun e he => errorEvent_not_streamStart e (h1 e he)),
      countEvents_eq_zero _ _
        (fun e he => ((flushTranscoder_spec initialTranscoderState).2.2 e he).1)]
  · intro v cs hck
    subst hck
    obtain ⟨_, t2, _⟩ :=
      transformChunk_success_streamStart p w v initialTranscoderState
    rcases hX : transformChunk p w (.success v) initialTranscoderState with ⟨evsc, r⟩
    rw [hX] at t2
    simp only at t2
    obtain ⟨h2a, _⟩ := t2 rfl
    have hevs : StreamEvent.streamStart w :: evsc.tail = evsc :=
      List.cons_head?_tail h2a
    rcases r with e | s₁
    · simp only [runTranscoder, runTranscoderAux, hX]
      rw [← hevs]
      rfl
    · rcases hR : runTranscoderAux p w cs s₁ with ⟨evs₂, r₂⟩
      rcases r₂ with e₂ | s_f <;>
      · simp only [runTranscoder, runTranscoderAux, hX, hR]
        rw [← hevs]
        rfl

/-- Witness for C4 at concrete streams: two failures emit no stream-start;
a leading successful chunk puts stream-start first. -/
theorem stream_start_once_after_errors_witness :
    countEvents isStreamStartEvent
        (runTranscoder emptyObjectOnly [] [.failure "a", .failure "b"]).1 = 0 ∧
    (runTranscoder emptyObjectOnly ["w"]
        [.success emptyChunkValue]).1.head? = some (.streamStart ["w"]) :=
  ⟨(stream_start_once_after_errors emptyObjectOnly []
        [.failure "a", .failure "b"]).2.2.1
      (by
        intro c hc v heq
        rcases List.mem_cons.mp hc with rfl | hc2
        · simp at heq
        · rcases List.mem_singleton.mp hc2 with rfl
          simp at heq),
    (stream_start_once_after_errors emptyObjectOnly ["w"]
        [.success emptyChunkValue]).2.2.2 emptyChunkValue [] rfl⟩

/-- C5: a chunk that fails to parse only enqueues an `error` event and
leaves the transcoder state untouched, and for any stream of well-formed
chunks the run never aborts and the flush emits exactly one `finish`
event, as the last event, carrying the last-seen finish reason (mapped,
defaulting to \"other\") and the last-seen usage (all fields absent when
none was reported). -/
theorem parse_failure_nonfatal_flush_finish (p : String → Bool)
    (w : List String) :
    (∀ e s, transformChunk p w (.failure e) s = ([.error e], .ok s)) ∧
    (∀ chunks, (∀ c ∈ chunks, chunkWellFormed c = true) →
      (runTranscoder p w chunks).2 = none ∧
      countEvents isFinishEvent (runTranscoder p w chunks).1 = 1 ∧
      (runTranscoder p w chunks).1.getLast? =
        some (.finish (lastFinishReasonSpec chunks) (lastUsageSpec chunks))) := by
  refine ⟨fun e s => rfl, ?_⟩
  intro chunks hwf
  obtain ⟨s_f, g1, g2, g3, g4⟩ := runAux_state p w chunks hwf initialTranscoderState
  rcases hR : runTranscoderAux p w chunks initialTranscoderState with ⟨evs, r⟩
  rw [hR] at g1 g2
  simp only at g1 g2
  subst g1
  simp only [runTranscoder, hR]
  obtain ⟨ff1, ff2, _⟩ := flushTranscoder_spec s_f
  refine ⟨trivial, ?_, ?_⟩
  · rw [countEvents_append, countEvents_eq_zero _ _ g2, ff1]
  · rw [List.getLast?_append, ff2, g3, g4]
    rcases hfr : ((chunks.map chunkFinishReasons).flatten).getLast? with _ | fr <;>
      rcases hus : ((chunks.map chunkUsages).flatten).getLast? with _ | ⟨pt, ct⟩ <;>
        simp [hfr, hus, lastFinishReasonSpec, lastUsageSpec,
          initialTranscoderState, Option.or]

/-- Witness for C5 at a concrete all-failure stream. -/
theorem parse_failure_nonfatal_flush_finish_witness :
    transformChunk emptyObjectOnly [] (.failure "x") initialTranscoderState
        = ([.error "x"], .ok initialTranscoderState) ∧
    countEvents isFinishEvent
        (runTranscoder emptyObjectOnly [] [.failure "a", .failure "b"]).1 = 1 ∧
    (runTranscoder emptyObjectOnly [] [.failure "a", .failure "b"]).1.getLast?
      = some (.finish (lastFinishReasonSpec [.failure "a", .failure "b"])
          (lastUsageSpec [.failure "a", .failure "b"])) :=
  ⟨(parse_failure_nonfatal_flush_finish emptyObjectOnly []).1 "x"
      initialTranscoderState,
    ((parse_failure_nonfatal_flush_finish emptyObjectOnly []).2
        [.failure "a", .failure "b"] (by decide)).2.1,
    ((parse_failure_nonfatal_flush_finish emptyObjectOnly []).2
        [.failure "a", .failure "b"] (by decide)).2.2⟩

end QwenProvider
